import Mathlib

/-!
The bcd CNPJ open-data loader: extraction and load pipeline.

Shallow embedding of `cmd/load.go` (entity loaders, `txInsert`, schema) and
`cmd/extract.go` (`unzip`, the `extract` command loop), followed by the
properties proved about them.

Conventions.
* A Go `string` that holds decoded text is a Lean `String`; the CSV fields come
  out of a Latin-1 decoder, so they are always valid UTF-8 and the rune-wise
  library functions (`strings.TrimSpace`) act on them character by character.
* A Go `any` that holds either a string or `nil` is a `Value`.
* A Go `error` is a `String` (its message).
* An index-out-of-range panic is the outcome `none` of a row builder and the
  result `Result.panic` of a loop.
* Logging calls and the wall-clock progress timer do not touch the state that is
  modelled and are left out.
-/

namespace Bcd

/-! ## Strings -/

/-- Go `unicode.IsSpace`: the Latin-1 switch, then the `White_Space` range table. -/
def isSpace (c : Char) : Bool :=
  let n := c.toNat
  if n ≤ 0xFF then
    n == 0x09 || n == 0x0A || n == 0x0B || n == 0x0C || n == 0x0D || n == 0x20
      || n == 0x85 || n == 0xA0
  else
    n == 0x1680 || (0x2000 ≤ n && n ≤ 0x200A) || n == 0x2028 || n == 0x2029
      || n == 0x202F || n == 0x205F || n == 0x3000

/-- Go `strings.TrimLeftFunc(s, unicode.IsSpace)` on the characters of a string. -/
def trimLeft (s : List Char) : List Char :=
  s.dropWhile isSpace

/-- Go `strings.TrimRightFunc(s, unicode.IsSpace)` on the characters of a string. -/
def trimRight (s : List Char) : List Char :=
  (s.reverse.dropWhile isSpace).reverse

/-- Go `strings.TrimSpace`: leading and trailing white space removed. -/
def TrimSpace (s : String) : String :=
  ⟨trimRight (trimLeft s.data)⟩

/-- Go `strings.Join`: the empty string for no element, the element itself for one,
otherwise the first element followed by separator and element for each further one. -/
def Join (elems : List String) (sep : String) : String :=
  match elems with
  | [] => ""
  | [e] => e
  | e :: rest => rest.foldl (fun b s => b ++ sep ++ s) e

/-- Source `joinRest`: every element is trimmed in place, then all are joined with `;`. -/
def joinRest (ss : List String) : String :=
  Join (ss.map TrimSpace) ";"

/-! ## Values and rows -/

/-- A bound statement parameter: Go `nil` or a Go string. -/
inductive Value where
  | null : Value
  | text (s : String) : Value
  deriving DecidableEq, Repr

/-- A value list handed to `emit`, and a stored table row. -/
abbrev Row := List Value

/-- A table: its rows in insertion order. -/
abbrev Table := List Row

/-! ## Entity loaders: column lists and value lists -/

/-- Column list of `loadEmpresas`. -/
def empresasCols : List String :=
  ["cnpj_basico", "razao_social", "natureza_juridica", "qualificacao_responsavel",
   "capital_social", "porte_empresa", "ente_federativo"]

/-- Column list of `loadEstabelecimentos`. -/
def estabelecimentosCols : List String :=
  ["cnpj_basico", "cnpj_ordem", "cnpj_dv", "identificador_matriz_filial", "nome_fantasia",
   "situacao_cadastral", "data_situacao_cadastral", "motivo_situacao_cadastral",
   "nome_cidade_exterior", "pais", "data_inicio_atividade", "cnae_fiscal_principal",
   "cnae_fiscal_secundaria", "tipo_logradouro", "logradouro", "numero", "complemento",
   "bairro", "cep", "uf", "municipio", "ddd1", "telefone1", "ddd2", "telefone2", "ddd_fax",
   "fax", "correio_eletronico", "situacao_especial", "data_situacao_especial"]

/-- Column list of `loadCnaes`. -/
def cnaesCols : List String :=
  ["codigo", "descricao"]

/-- Column list of `loadMunicipios`. -/
def municipiosCols : List String :=
  ["codigo", "descricao"]

/-- Value list of `loadEmpresas` for one record: `vals := make([]any, len(cols))`, then for
each `i` in `range cols` the trimmed field when `i < len(rec)` and `nil` otherwise. -/
def empresasVals (rec : List String) : Row :=
  (List.range empresasCols.length).foldl
    (fun vals i =>
      if h : i < rec.length then vals.set i (Value.text (TrimSpace (rec.get ⟨i, h⟩)))
      else vals.set i Value.null)
    (List.replicate empresasCols.length Value.null)

/-- Value list of `loadEstabelecimentos` for one record: `vals := make([]any, len(cols))`
(all `nil`), then for each `i` in `range cols` with `i < len(rec)` the trimmed field is
stored; there is no else branch. -/
def estabelecimentosVals (rec : List String) : Row :=
  (List.range estabelecimentosCols.length).foldl
    (fun vals i =>
      if h : i < rec.length then vals.set i (Value.text (TrimSpace (rec.get ⟨i, h⟩)))
      else vals)
    (List.replicate estabelecimentosCols.length Value.null)

/-- Value list of `loadCnaes` for one record:
`[]any{TrimSpace(rec[0]), TrimSpace(joinRest(rec[1:]))}`; `rec[0]` panics on a record
without fields. -/
def cnaesVals (rec : List String) : Option Row :=
  match rec with
  | [] => none
  | f :: rest => some [Value.text (TrimSpace f), Value.text (TrimSpace (joinRest rest))]

/-- Value list of `loadMunicipios` for one record (the same expression as `loadCnaes`). -/
def municipiosVals (rec : List String) : Option Row :=
  match rec with
  | [] => none
  | f :: rest => some [Value.text (TrimSpace f), Value.text (TrimSpace (joinRest rest))]

/-! ## Record decoder -/

/-- Outcome of one `r.Read()` call that is not `io.EOF`: a decoded record or a read error. -/
inductive ReadResult where
  | record (rec : List String) : ReadResult
  | err (e : String) : ReadResult
  deriving DecidableEq, Repr

/-- A CSV source as `newLatin1CSV` sees it: whether `os.Open` fails, and the successive
results of `r.Read()`; after the last one `Read` reports `io.EOF`. -/
structure CsvFile where
  openErr : Option String
  reads : List ReadResult

/-! ## Store: schema, transaction state, driver -/

/-- A table declared by `createSchema`: name, columns in declaration order, and the column
declared `PRIMARY KEY` (if any). -/
structure TableDef where
  name : String
  cols : List String
  primaryKey : Option String

/-- The four `CREATE TABLE IF NOT EXISTS` statements of `createSchema`. -/
def createSchema : List TableDef :=
  [ TableDef.mk "empresas"
      ["cnpj_basico", "razao_social", "natureza_juridica", "qualificacao_responsavel",
       "capital_social", "porte_empresa", "ente_federativo"]
      (some "cnpj_basico"),
    TableDef.mk "estabelecimentos"
      ["cnpj_basico", "cnpj_ordem", "cnpj_dv", "identificador_matriz_filial", "nome_fantasia",
       "situacao_cadastral", "data_situacao_cadastral", "motivo_situacao_cadastral",
       "nome_cidade_exterior", "pais", "data_inicio_atividade", "cnae_fiscal_principal",
       "cnae_fiscal_secundaria", "tipo_logradouro", "logradouro", "numero", "complemento",
       "bairro", "cep", "uf", "municipio", "ddd1", "telefone1", "ddd2", "telefone2",
       "ddd_fax", "fax", "correio_eletronico", "situacao_especial", "data_situacao_especial"]
      none,
    TableDef.mk "cnaes" ["codigo", "descricao"] (some "codigo"),
    TableDef.mk "municipios" ["codigo", "descricao"] (some "codigo") ]

/-- A call made on the transaction or its prepared statement, in program order. -/
inductive TxCall where
  | begin : TxCall
  | prepare : TxCall
  | exec (vals : Row) : TxCall
  | rollback : TxCall
  | commit : TxCall
  deriving DecidableEq, Repr

/-- State of the target table as the store holds it: the committed rows, the working copy
of the open transaction (`none` when no transaction is open), and the calls made so far. -/
structure DB where
  committed : Table
  pending : Option Table
  calls : List TxCall
  deriving DecidableEq, Repr

/-- Semantics of a prepared statement: from the working copy and a value list to the new
working copy, or an execution error. -/
abbrev Stmt := Table → Row → Except String Table

/-- The store as `txInsert` drives it: whether `BeginTx` fails, what `PrepareContext` yields
for an insert-or-replace into a table with a column list, whether `Commit` fails. -/
structure Driver where
  beginErr : Option String
  prepare : String → List String → Except String Stmt
  commitErr : Option String

/-- Result of a Go function returning `error`: `nil`, an error, or a panic. -/
inductive Result where
  | ok : Result
  | err (e : String) : Result
  | panic : Result
  deriving DecidableEq, Repr

/-- Store side of `db.BeginTx`: a transaction opens on a working copy of the committed rows. -/
def DB.beginTx (db : DB) : DB :=
  DB.mk db.committed (some db.committed) (db.calls ++ [TxCall.begin])

/-- Store side of `tx.Rollback`: the working copy is discarded. -/
def DB.rollback (db : DB) : DB :=
  DB.mk db.committed none (db.calls ++ [TxCall.rollback])

/-- Store side of a successful `tx.Commit`: the working copy becomes the committed rows. -/
def DB.commit (db : DB) : DB :=
  DB.mk (db.pending.getD db.committed) none (db.calls ++ [TxCall.commit])

/-- Store side of `stmt.ExecContext(ctx, vals...)`: the statement runs on the working copy; a
failing statement leaves the working copy as it was and the transaction open. -/
def DB.execStmt (stmt : Stmt) (vals : Row) (db : DB) : Result × DB :=
  match db.pending with
  | none => (Result.err "sql: transaction has already been committed or rolled back", db)
  | some t =>
    match stmt t vals with
    | Except.error e => (Result.err e, DB.mk db.committed (some t) (db.calls ++ [TxCall.exec vals]))
    | Except.ok t1 => (Result.ok, DB.mk db.committed (some t1) (db.calls ++ [TxCall.exec vals]))

/-- SQLite `INSERT OR REPLACE` of one row. With a primary key at position `i` of the bound
columns and a non-NULL key value, every stored row with the same key is deleted before the
new row is appended; a NULL key conflicts with nothing; without a primary key the row is
appended. -/
def insertOrReplace (keyIdx : Option Nat) (t : Table) (vals : Row) : Table :=
  match keyIdx with
  | none => t ++ [vals]
  | some i =>
    match vals[i]? with
    | some (Value.text s) => t.filter (fun r => decide (r[i]? ≠ some (Value.text s))) ++ [vals]
    | _ => t ++ [vals]

/-- SQLite `PrepareContext` of `INSERT OR REPLACE INTO table(cols) VALUES(?,...)` against the
tables of `createSchema`: unknown tables and columns are rejected; the statement replaces on
the declared primary key, located by its position in the bound column list. All columns are
`TEXT` without further constraints, so execution itself never fails. -/
def sqlitePrepare (table : String) (cols : List String) : Except String Stmt :=
  match createSchema.find? (fun d => d.name == table) with
  | none => Except.error ("no such table: " ++ table)
  | some d =>
    match cols.find? (fun c => !(d.cols.contains c)) with
    | some c => Except.error ("table " ++ table ++ " has no column named " ++ c)
    | none =>
      let keyIdx : Option Nat :=
        match d.primaryKey with
        | none => none
        | some k => if cols.contains k then some (cols.indexOf k) else none
      Except.ok (fun t vals => Except.ok (insertOrReplace keyIdx t vals))

/-- The SQLite store with the schema of `createSchema`; `BeginTx` and `Commit` may fail. -/
def sqlite (beginErr commitErr : Option String) : Driver :=
  Driver.mk beginErr sqlitePrepare commitErr

/-! ## Bulk writer and loaders -/

/-- Source `txInsert`. `BeginTx` (error returned), `PrepareContext` (rollback, error
returned), then `iter` is run with an `emit` that executes the statement; an error of `iter`
rolls back and is returned, otherwise `Commit` is called and its error, if any, returned. A
panic inside `iter` unwinds through the function: neither `Rollback` nor `Commit` is called. -/
def txInsert (d : Driver) (table : String) (cols : List String)
    (iter : (Row → DB → Result × DB) → DB → Result × DB) (db : DB) : Result × DB :=
  match d.beginErr with
  | some e => (Result.err e, db)
  | none =>
    let db1 := db.beginTx
    let db2 := DB.mk db1.committed db1.pending (db1.calls ++ [TxCall.prepare])
    match d.prepare table cols with
    | Except.error e => (Result.err e, db2.rollback)
    | Except.ok stmt =>
      match iter (DB.execStmt stmt) db2 with
      | (Result.err e, db3) => (Result.err e, db3.rollback)
      | (Result.panic, db3) => (Result.panic, db3)
      | (Result.ok, db3) =>
        match d.commitErr with
        | some e => (Result.err e, DB.mk db3.committed db3.pending (db3.calls ++ [TxCall.commit]))
        | none => (Result.ok, db3.commit)

/-- The read loop shared by the four loaders' callbacks: `io.EOF` ends it with `nil`, a read
error is returned, otherwise the value list is built (`build`, `none` being a panic) and
emitted, and an error of `emit` is returned. -/
def readLoop (build : List String → Option Row) (emit : Row → DB → Result × DB) :
    List ReadResult → DB → Result × DB
  | [], db => (Result.ok, db)
  | ReadResult.err e :: _, db => (Result.err e, db)
  | ReadResult.record rec :: rest, db =>
    match build rec with
    | none => (Result.panic, db)
    | some vals =>
      match emit vals db with
      | (Result.ok, db1) => readLoop build emit rest db1
      | (r, db1) => (r, db1)

/-- Source `loadEmpresas`. -/
def loadEmpresas (d : Driver) (f : CsvFile) (db : DB) : Result × DB :=
  match f.openErr with
  | some e => (Result.err e, db)
  | none =>
    txInsert d "empresas" empresasCols
      (fun emit => readLoop (fun rec => some (empresasVals rec)) emit f.reads) db

/-- Source `loadEstabelecimentos`. -/
def loadEstabelecimentos (d : Driver) (f : CsvFile) (db : DB) : Result × DB :=
  match f.openErr with
  | some e => (Result.err e, db)
  | none =>
    txInsert d "estabelecimentos" estabelecimentosCols
      (fun emit => readLoop (fun rec => some (estabelecimentosVals rec)) emit f.reads) db

/-- Source `loadCnaes`. -/
def loadCnaes (d : Driver) (f : CsvFile) (db : DB) : Result × DB :=
  match f.openErr with
  | some e => (Result.err e, db)
  | none => txInsert d "cnaes" cnaesCols (fun emit => readLoop cnaesVals emit f.reads) db

/-- Source `loadMunicipios`. -/
def loadMunicipios (d : Driver) (f : CsvFile) (db : DB) : Result × DB :=
  match f.openErr with
  | some e => (Result.err e, db)
  | none =>
    txInsert d "municipios" municipiosCols (fun emit => readLoop municipiosVals emit f.reads) db

/-- The three entity kinds whose table declares a primary key. -/
inductive KeyedKind where
  | empresas : KeyedKind
  | cnaes : KeyedKind
  | municipios : KeyedKind
  deriving DecidableEq, Repr

/-- The loader of a keyed entity kind. -/
def KeyedKind.load : KeyedKind → Driver → CsvFile → DB → Result × DB
  | KeyedKind.empresas => loadEmpresas
  | KeyedKind.cnaes => loadCnaes
  | KeyedKind.municipios => loadMunicipios

/-- The value list the loader of a keyed entity kind builds for a record. -/
def KeyedKind.vals : KeyedKind → List String → Option Row
  | KeyedKind.empresas => fun rec => some (empresasVals rec)
  | KeyedKind.cnaes => cnaesVals
  | KeyedKind.municipios => municipiosVals

/-! ## Archive extractor -/

/-- The scan of Go `strings.LastIndex` for a one-character separator: positions `i-1`, ...,
`0` are tried in turn; `-1` when none holds the separator. -/
def lastIndexLoop (s : List Char) (c : Char) : Nat → Int
  | 0 => -1
  | i + 1 => if s.get? i = some c then (i : Int) else lastIndexLoop s c i

/-- Go `strings.LastIndex(s, sep)` for a one-character `sep`. -/
def LastIndex (s : List Char) (c : Char) : Int :=
  lastIndexLoop s c s.length

/-- Output filename derived by `unzip` from an entry name:
`if idx := strings.LastIndex(name, "/"); idx >= 0 { name = name[idx+1:] }`. -/
def flatName (name : String) : String :=
  let idx := LastIndex name.data '/'
  if idx ≥ 0 then ⟨name.data.drop (idx.toNat + 1)⟩ else name

/-- One entry of an archive: its name (`f.Name`), its content, whether `f.Open()` fails, and
whether `io.Copy` fails (after how many bytes written, with which error). -/
structure ZipEntry where
  name : String
  data : List UInt8
  openErr : Option String
  copyErr : Option (Nat × String)
  deriving DecidableEq, Repr

/-- An archive file: whether `zip.OpenReader` fails, and its entries in archive order
(`r.File`). -/
structure Archive where
  openErr : Option String
  file : List ZipEntry

/-- Failures of the operating system calls of `unzip`: `os.MkdirAll` and, per file name,
`os.Create`. -/
structure FsEnv where
  mkdirErr : Option String
  createErr : String → Option String

/-- State of the destination directory (which exists: the `extract` command creates it before
the first `unzip`): its files by name with their content, and the names (`f.Name`) of the
archive entries that `f.Open()` was called on so far. -/
structure Dest where
  files : List (String × List UInt8)
  opened : List String
  deriving DecidableEq, Repr

/-- Content of the file with a name in the destination directory, if there is one. -/
def fileContent (files : List (String × List UInt8)) (name : String) : Option (List UInt8) :=
  match files with
  | [] => none
  | (n, c) :: rest => if n = name then some c else fileContent rest name

/-- Whether `os.Stat(filepath.Join(dstRoot, name))` succeeds: `.` is the destination
directory itself and `..` its parent, otherwise a file of that name has to exist. -/
def statOk (files : List (String × List UInt8)) (name : String) : Bool :=
  name == "." || name == ".." || (fileContent files name).isSome

/-- The directory after `os.Create` of a name followed by writing content to it. -/
def writeFile (files : List (String × List UInt8)) (name : String) (c : List UInt8) :
    List (String × List UInt8) :=
  (name, c) :: files.filter (fun p => !decide (p.1 = name))

/-- Body of the loop of `unzip` for one entry; `none` is the normal end of the iteration
(also through `continue`), `some e` is `return e`. -/
def unzipEntry (os : FsEnv) (f : ZipEntry) (st : Dest) : Option String × Dest :=
  let name := flatName f.name
  if name = "" then (none, st)
  else
    match os.mkdirErr with
    | some e => (some e, st)
    | none =>
      if statOk st.files name then (none, st)
      else
        let st1 := Dest.mk st.files (st.opened ++ [f.name])
        match f.openErr with
        | some e => (some e, st1)
        | none =>
          match os.createErr name with
          | some e => (some e, st1)
          | none =>
            match f.copyErr with
            | some (n, e) => (some e, Dest.mk (writeFile st1.files name (f.data.take n)) st1.opened)
            | none => (none, Dest.mk (writeFile st1.files name f.data) st1.opened)

/-- The loop `for _, f := range r.File` of `unzip`. -/
def unzipLoop (os : FsEnv) : List ZipEntry → Dest → Option String × Dest
  | [], st => (none, st)
  | f :: rest, st =>
    match unzipEntry os f st with
    | (some e, st1) => (some e, st1)
    | (none, st1) => unzipLoop os rest st1

/-- Source `unzip`. -/
def unzip (os : FsEnv) (a : Archive) (st : Dest) : Option String × Dest :=
  match a.openErr with
  | some e => (some e, st)
  | none => unzipLoop os a.file st

/-- An entry of the archive directory as `os.ReadDir` lists it. -/
structure DirEntry where
  name : String
  isDir : Bool
  archive : Archive

/-- Go `strings.HasSuffix`. -/
def HasSuffix (s suffix : String) : Bool :=
  suffix.data.isSuffixOf s.data

/-- Whether the loop of the `extract` command processes a directory entry: not a directory,
and the lower-cased name ends in `.zip` (`ToLower` stands for Go `strings.ToLower`). -/
def isArchive (ToLower : String → String) (e : DirEntry) : Bool :=
  !(e.isDir || !(HasSuffix (ToLower e.name) ".zip"))

/-- The loop over the archive directory in `extractCmd.RunE`: each recognised archive is
unzipped in listing order; the first error is wrapped with the archive name and returned. -/
def extractLoop (os : FsEnv) (ToLower : String → String) :
    List DirEntry → Dest → Option String × Dest
  | [], st => (none, st)
  | e :: rest, st =>
    if e.isDir || !(HasSuffix (ToLower e.name) ".zip") then extractLoop os ToLower rest st
    else
      match unzip os e.archive st with
      | (some err, st1) => (some ("unzip " ++ e.name ++ ": " ++ err), st1)
      | (none, st1) => extractLoop os ToLower rest st1

/-! ## Auxiliary predicates used in the statements and proofs -/

/-- A character sequence neither starts nor ends with white space. -/
def cleanEnds (l : List Char) : Prop :=
  (∀ c, l.head? = some c → isSpace c = false) ∧ (∀ c, l.getLast? = some c → isSpace c = false)

/-- The value at position `i` of a positional value list: the trimmed field `i` of the
record when the record has one, `nil` otherwise. -/
def cell (rec : List String) (i : Nat) : Value :=
  match rec.get? i with
  | some s => Value.text (TrimSpace s)
  | none => Value.null

/-- A stored row holds the text `s` in its first column (the primary-key column of the keyed
tables). -/
def hasKey (s : String) (r : Row) : Bool :=
  decide (r[0]? = some (Value.text s))

/-- The first column of a stored row equals the first column of one of the given value
lists. -/
def keyInFile (rows : List Row) (r : Row) : Bool :=
  rows.any (fun v => decide (r[0]? = v[0]?))

/-! ## Sample inputs used in the witnesses and counterexamples -/

/-- A statement that rejects a value list whose first value is `nil` (a `NOT NULL`
constraint on the first column) and appends every other value list. -/
def notNullStmt : Stmt :=
  fun t vals =>
    if vals.head? = some Value.null then Except.error "NOT NULL constraint failed"
    else Except.ok (t ++ [vals])

/-- A store on which `BeginTx`, `PrepareContext` and `Commit` succeed and every statement is
`notNullStmt`. -/
def notNullDriver : Driver :=
  Driver.mk none (fun _ _ => Except.ok notNullStmt) none

/-- A value-list builder that maps the empty field to `nil` and every other field to itself. -/
def sampleBuild (rec : List String) : Option Row :=
  some (rec.map (fun s => if s = "" then Value.null else Value.text s))

/-- A table state with one committed row and no open transaction. -/
def sampleDB : DB :=
  DB.mk [[Value.text "9", Value.text "z"], [Value.text "1", Value.text "old"]] none []

/-- An Activity-Code file of three records, the first and the last with the same code. -/
def sampleCnaes : CsvFile :=
  CsvFile.mk none
    [ReadResult.record ["1", "a"], ReadResult.record ["2", "b"], ReadResult.record ["1 ", "c"]]

/-- An Establishment file of one record. -/
def sampleEstabelecimentos : CsvFile :=
  CsvFile.mk none [ReadResult.record ["00000000", "0001", "91"]]

/-- The table state before anything is loaded. -/
def emptyDB : DB :=
  DB.mk [] none []

/-- An operating system on which `os.MkdirAll` and `os.Create` always succeed. -/
def okEnv : FsEnv :=
  FsEnv.mk none (fun _ => none)

/-- The empty destination directory, nothing opened yet. -/
def emptyDest : Dest :=
  Dest.mk [] []

/-- A destination directory that already holds a file `x.csv`. -/
def sampleDest : Dest :=
  Dest.mk [("x.csv", [7])] []

/-- An archive with two entries that flatten to the same name `x.csv`. -/
def sampleArchive : Archive :=
  Archive.mk none [ZipEntry.mk "a/x.csv" [1] none none, ZipEntry.mk "b/x.csv" [2] none none]

/-- An archive directory with two archives that each hold an entry `x.csv`. -/
def sampleDir : List DirEntry :=
  [DirEntry.mk "a.zip" false (Archive.mk none [ZipEntry.mk "x.csv" [1] none none]),
   DirEntry.mk "b.zip" false (Archive.mk none [ZipEntry.mk "x.csv" [2] none none])]

/-! ## Lemmas on strings -/

theorem trimLeft_of_head (l : List Char) (h : ∀ c, l.head? = some c → isSpace c = false) :
    trimLeft l = l := by
  cases l with
  | nil => rfl
  | cons a t =>
    have ha : isSpace a = false := h a rfl
    simp [trimLeft, List.dropWhile, ha]

theorem trimRight_of_last (l : List Char) (h : ∀ c, l.getLast? = some c → isSpace c = false) :
    trimRight l = l := by
  have h1 : trimLeft l.reverse = l.reverse := by
    apply trimLeft_of_head
    intro c hc
    apply h c
    simpa [List.head?_reverse] using hc
  unfold trimRight
  unfold trimLeft at h1
  rw [h1, List.reverse_reverse]

theorem trim_of_cleanEnds (l : List Char) (h : cleanEnds l) : trimRight (trimLeft l) = l := by
  rw [trimLeft_of_head l h.1, trimRight_of_last l h.2]

theorem TrimSpace_of_cleanEnds (s : String) (h : cleanEnds s.data) : TrimSpace s = s := by
  unfold TrimSpace
  rw [trim_of_cleanEnds s.data h]

theorem head_dropWhile_isSpace (l : List Char) (c : Char)
    (h : (l.dropWhile isSpace).head? = some c) : isSpace c = false := by
  induction l with
  | nil => simp at h
  | cons a t ih =>
    by_cases ha : isSpace a = true
    · rw [List.dropWhile_cons_of_pos ha] at h
      exact ih h
    · rw [List.dropWhile_cons_of_neg ha] at h
      simp at h
      subst h
      simpa using ha

theorem cleanEnds_trim (l : List Char) : cleanEnds (trimRight (trimLeft l)) := by
  constructor
  · intro c hc
    have hpre : trimRight (trimLeft l) <+: trimLeft l := List.rdropWhile_prefix isSpace _
    obtain ⟨t, ht⟩ := hpre
    cases hr : trimRight (trimLeft l) with
    | nil => rw [hr] at hc; simp at hc
    | cons a r =>
      rw [hr] at hc ht
      simp at hc
      subst hc
      apply head_dropWhile_isSpace l
      unfold trimLeft at ht
      rw [← ht]
      rfl
  · intro c hc
    unfold trimRight at hc
    rw [List.getLast?_reverse] at hc
    exact head_dropWhile_isSpace _ c hc

theorem cleanEnds_TrimSpace (s : String) : cleanEnds (TrimSpace s).data :=
  cleanEnds_trim s.data

theorem cleanEnds_nil : cleanEnds [] := by
  constructor <;> intro c hc <;> simp at hc

theorem cleanEnds_sep (a b : List Char) (ha : cleanEnds a) (hb : cleanEnds b) :
    cleanEnds (a ++ (';' :: b)) := by
  constructor
  · intro c hc
    cases a with
    | nil =>
      simp at hc
      subst hc
      decide
    | cons x t => exact ha.1 c (by simpa using hc)
  · intro c hc
    rw [List.getLast?_append_of_ne_nil _ (by simp)] at hc
    cases b with
    | nil =>
      simp at hc
      subst hc
      decide
    | cons x t =>
      apply hb.2 c
      rw [List.getLast?_cons_cons] at hc
      exact hc

theorem cleanEnds_foldl (rest : List String) (acc : String) (hacc : cleanEnds acc.data)
    (hrest : ∀ s ∈ rest, cleanEnds s.data) :
    cleanEnds (rest.foldl (fun b s => b ++ ";" ++ s) acc).data := by
  induction rest generalizing acc with
  | nil => simpa using hacc
  | cons x t ih =>
    rw [List.foldl_cons]
    apply ih
    · have hx := hrest x (by simp)
      have := cleanEnds_sep acc.data x.data hacc hx
      simpa [String.data_append] using this
    · intro s hs
      exact hrest s (by simp [hs])

theorem cleanEnds_Join (ss : List String) (h : ∀ s ∈ ss, cleanEnds s.data) :
    cleanEnds (Join ss ";").data := by
  match ss, h with
  | [], _ => exact cleanEnds_nil
  | [e], h => exact h e (by simp)
  | e :: x :: t, h =>
    unfold Join
    exact cleanEnds_foldl (x :: t) e (h e (by simp)) (fun s hs => h s (by simp [hs]))

theorem TrimSpace_joinRest (ss : List String) : TrimSpace (joinRest ss) = joinRest ss := by
  apply TrimSpace_of_cleanEnds
  unfold joinRest
  apply cleanEnds_Join
  intro s hs
  obtain ⟨x, _, rfl⟩ := List.mem_map.1 hs
  exact cleanEnds_TrimSpace x

/-! ## Lemmas on the loaders -/

theorem sqlitePrepare_cnaes :
    sqlitePrepare "cnaes" cnaesCols = Except.ok (fun t vals => Except.ok (insertOrReplace (some 0) t vals)) := by
  rfl

theorem sqlitePrepare_municipios :
    sqlitePrepare "municipios" municipiosCols = Except.ok (fun t vals => Except.ok (insertOrReplace (some 0) t vals)) := by
  rfl

theorem sqlitePrepare_empresas :
    sqlitePrepare "empresas" empresasCols = Except.ok (fun t vals => Except.ok (insertOrReplace (some 0) t vals)) := by
  rfl

theorem sqlitePrepare_estabelecimentos :
    sqlitePrepare "estabelecimentos" estabelecimentosCols = Except.ok (fun t vals => Except.ok (insertOrReplace none t vals)) := by
  rfl

theorem cnaesVals_eq (rec : List String) (h : rec ≠ []) :
    cnaesVals rec = some [Value.text (TrimSpace (rec.head h)),
        Value.text (Join (rec.tail.map TrimSpace) ";")] := by
  cases rec with
  | nil => exact absurd rfl h
  | cons f rest =>
    simp only [cnaesVals, TrimSpace_joinRest, List.head_cons, List.tail_cons]
    rfl

theorem municipiosVals_eq (rec : List String) (h : rec ≠ []) :
    municipiosVals rec = some [Value.text (TrimSpace (rec.head h)),
        Value.text (Join (rec.tail.map TrimSpace) ";")] := by
  cases rec with
  | nil => exact absurd rfl h
  | cons f rest =>
    simp only [municipiosVals, TrimSpace_joinRest, List.head_cons, List.tail_cons]
    rfl

theorem fill_range (n : Nat) (g : Nat → Value) (step : Row → Nat → Row)
    (hstep : ∀ (pre : Row) (k : Nat),
      step (pre ++ List.replicate (k + 1) Value.null) pre.length
        = pre ++ g pre.length :: List.replicate k Value.null) :
    ∀ m, m ≤ n → (List.range m).foldl step (List.replicate n Value.null)
      = (List.range m).map g ++ List.replicate (n - m) Value.null := by
  intro m
  induction m with
  | zero => intro _; simp
  | succ m ih =>
    intro hm
    rw [List.range_succ, List.foldl_append, ih (by omega)]
    have hk : n - m = (n - (m + 1)) + 1 := by omega
    rw [hk]
    have := hstep ((List.range m).map g) (n - (m + 1))
    simp only [List.length_map, List.length_range] at this
    simp only [List.foldl_cons, List.foldl_nil, this, List.map_append, List.map_cons, List.map_nil,
      List.append_assoc, List.singleton_append]

theorem set_at_length (pre : Row) (k : Nat) (v : Value) :
    (pre ++ List.replicate (k + 1) Value.null).set pre.length v
      = pre ++ v :: List.replicate k Value.null := by
  induction pre with
  | nil => simp [List.replicate_succ]
  | cons a t ih => simpa using ih

theorem empresasVals_eq (rec : List String) :
    empresasVals rec = (List.range empresasCols.length).map (cell rec) := by
  unfold empresasVals
  rw [fill_range empresasCols.length (cell rec) _ _ empresasCols.length (le_refl _)]
  · simp
  · intro pre k
    by_cases h : pre.length < rec.length
    · simp only [h, dite_true, set_at_length, cell, List.get?_eq_get h]
    · have h2 : rec.get? pre.length = none := by simp [List.get?_eq_none]; omega
      simp only [h, dite_false, set_at_length, cell, h2]

theorem estabelecimentosVals_eq (rec : List String) :
    estabelecimentosVals rec = (List.range estabelecimentosCols.length).map (cell rec) := by
  unfold estabelecimentosVals
  rw [fill_range estabelecimentosCols.length (cell rec) _ _ estabelecimentosCols.length (le_refl _)]
  · simp
  · intro pre k
    by_cases h : pre.length < rec.length
    · simp only [h, dite_true, set_at_length, cell, List.get?_eq_get h]
    · have h2 : rec.get? pre.length = none := by simp [List.get?_eq_none]; omega
      simp only [h, dite_false, cell, h2, List.replicate_succ]

theorem cell_take (rec : List String) (n i : Nat) (h : i < n) : cell (rec.take n) i = cell rec i := by
  unfold cell
  have : (rec.take n).get? i = rec.get? i := by 
    simp [List.getElem?_take, h]
  rw [this]

theorem cell_of_lt (rec : List String) (i : Nat) (h : i < rec.length) :
    cell rec i = Value.text (TrimSpace (rec.get ⟨i, h⟩)) := by
  simp only [cell, List.get?_eq_get h]

theorem cell_of_le (rec : List String) (i : Nat) (h : rec.length ≤ i) :
    cell rec i = Value.null := by
  have h2 : rec.get? i = none := by simp [List.get?_eq_none]; omega
  simp only [cell, h2]

theorem map_cell_range (rec : List String) :
    (List.range rec.length).map (cell rec) = rec.map (fun s => Value.text (TrimSpace s)) := by
  apply List.ext_getElem
  · simp
  · intro i h1 h2
    have hi : i < rec.length := by simpa using h1
    simp [cell_of_lt rec i hi]

/-! ## Claims on the value lists -/

/-- C1: for a record with at least one field, `loadCnaes` and `loadMunicipios` build (and
emit to the statement) exactly two values: the first field trimmed, and all further fields,
each trimmed, joined with `;`; the two records of the specification give the stated values. -/
theorem cnaes_municipios_two_columns (rec : List String) (h : rec ≠ []) :
    cnaesVals rec = some [Value.text (TrimSpace (rec.head h)),
        Value.text (Join (rec.tail.map TrimSpace) ";")]
    ∧ municipiosVals rec = some [Value.text (TrimSpace (rec.head h)),
        Value.text (Join (rec.tail.map TrimSpace) ";")]
    ∧ (∀ db : DB,
        (loadCnaes (sqlite none none) (CsvFile.mk none [ReadResult.record rec]) db).2.calls
          = db.calls ++ [TxCall.begin, TxCall.prepare,
              TxCall.exec [Value.text (TrimSpace (rec.head h)),
                Value.text (Join (rec.tail.map TrimSpace) ";")], TxCall.commit])
    ∧ (∀ db : DB,
        (loadMunicipios (sqlite none none) (CsvFile.mk none [ReadResult.record rec]) db).2.calls
          = db.calls ++ [TxCall.begin, TxCall.prepare,
              TxCall.exec [Value.text (TrimSpace (rec.head h)),
                Value.text (Join (rec.tail.map TrimSpace) ";")], TxCall.commit])
    ∧ cnaesVals ["0111301", "Cultivo de arroz", "extra"]
        = some [Value.text "0111301", Value.text "Cultivo de arroz;extra"]
    ∧ municipiosVals ["3550308", "São Paulo", "SP"]
        = some [Value.text "3550308", Value.text "São Paulo;SP"] := by
  refine ⟨cnaesVals_eq rec h, municipiosVals_eq rec h, ?_, ?_, by decide, by decide⟩
  · intro db
    simp [loadCnaes, txInsert, sqlite, sqlitePrepare_cnaes, readLoop, cnaesVals_eq rec h,
      DB.execStmt, DB.beginTx, DB.commit]
  · intro db
    simp [loadMunicipios, txInsert, sqlite, sqlitePrepare_municipios, readLoop,
      municipiosVals_eq rec h, DB.execStmt, DB.beginTx, DB.commit]

/-- Witness of C1 at the record `" 0111301 ", " Cultivo de arroz", "extra "`. -/
theorem cnaes_municipios_two_columns_witness :
    cnaesVals [" 0111301 ", " Cultivo de arroz", "extra "]
      = some [Value.text (TrimSpace " 0111301 "),
          Value.text (Join ([" Cultivo de arroz", "extra "].map TrimSpace) ";")] :=
  (cnaes_municipios_two_columns [" 0111301 ", " Cultivo de arroz", "extra "] (by decide)).1

/-- C2: for a record of any length, `loadEmpresas` and `loadEstabelecimentos` build a value
list as long as the column list, holding at position `i` the trimmed field `i` when the
record has one and `nil` otherwise; fields beyond the column count play no part, and loading
a file with that single record succeeds and executes the statement on that value list. -/
theorem empresas_estabelecimentos_positional (rec : List String) :
    ((empresasVals rec).length = empresasCols.length
      ∧ empresasVals rec = (List.range empresasCols.length).map (cell rec)
      ∧ (∀ i (h : i < rec.length), i < empresasCols.length →
          (empresasVals rec)[i]? = some (Value.text (TrimSpace (rec.get ⟨i, h⟩))))
      ∧ (∀ i, rec.length ≤ i → i < empresasCols.length →
          (empresasVals rec)[i]? = some Value.null)
      ∧ empresasVals (rec.take empresasCols.length) = empresasVals rec
      ∧ (∀ db : DB,
          loadEmpresas (sqlite none none) (CsvFile.mk none [ReadResult.record rec]) db
            = (Result.ok, DB.mk (insertOrReplace (some 0) db.committed (empresasVals rec)) none
                (db.calls ++ [TxCall.begin, TxCall.prepare, TxCall.exec (empresasVals rec),
                  TxCall.commit]))))
    ∧ ((estabelecimentosVals rec).length = estabelecimentosCols.length
      ∧ estabelecimentosVals rec = (List.range estabelecimentosCols.length).map (cell rec)
      ∧ (∀ i (h : i < rec.length), i < estabelecimentosCols.length →
          (estabelecimentosVals rec)[i]? = some (Value.text (TrimSpace (rec.get ⟨i, h⟩))))
      ∧ (∀ i, rec.length ≤ i → i < estabelecimentosCols.length →
          (estabelecimentosVals rec)[i]? = some Value.null)
      ∧ estabelecimentosVals (rec.take estabelecimentosCols.length) = estabelecimentosVals rec
      ∧ (∀ db : DB,
          loadEstabelecimentos (sqlite none none) (CsvFile.mk none [ReadResult.record rec]) db
            = (Result.ok, DB.mk (insertOrReplace none db.committed (estabelecimentosVals rec))
                none (db.calls ++ [TxCall.begin, TxCall.prepare,
                  TxCall.exec (estabelecimentosVals rec), TxCall.commit])))) := by
  refine ⟨⟨?_, empresasVals_eq rec, ?_, ?_, ?_, ?_⟩, ⟨?_, estabelecimentosVals_eq rec, ?_, ?_, ?_, ?_⟩⟩
  · simp [empresasVals_eq]
  · intro i h hi
    simp [empresasVals_eq, List.getElem?_map, List.getElem?_range hi, cell_of_lt rec i h]
  · intro i h hi
    simp [empresasVals_eq, List.getElem?_map, List.getElem?_range hi, cell_of_le rec i h]
  · rw [empresasVals_eq, empresasVals_eq]
    apply List.map_congr_left
    intro i hi
    exact cell_take rec _ i (by simpa using hi)
  · intro db
    simp [loadEmpresas, txInsert, sqlite, sqlitePrepare_empresas, readLoop, DB.execStmt,
      DB.beginTx, DB.commit]
  · simp [estabelecimentosVals_eq]
  · intro i h hi
    simp [estabelecimentosVals_eq, List.getElem?_map, List.getElem?_range hi, cell_of_lt rec i h]
  · intro i h hi
    simp [estabelecimentosVals_eq, List.getElem?_map, List.getElem?_range hi, cell_of_le rec i h]
  · rw [estabelecimentosVals_eq, estabelecimentosVals_eq]
    apply List.map_congr_left
    intro i hi
    exact cell_take rec _ i (by simpa using hi)
  · intro db
    simp [loadEstabelecimentos, txInsert, sqlite, sqlitePrepare_estabelecimentos, readLoop,
      DB.execStmt, DB.beginTx, DB.commit]

/-- Witness of C2 at the two-field record `" 1 ", "ACME"`: position 1 holds the trimmed
second field and position 2 holds `nil`. -/
theorem empresas_estabelecimentos_positional_witness :
    (empresasVals [" 1 ", "ACME "])[1]? = some (Value.text (TrimSpace "ACME "))
    ∧ (empresasVals [" 1 ", "ACME "])[2]? = some Value.null :=
  ⟨(empresas_estabelecimentos_positional [" 1 ", "ACME "]).1.2.2.1 1 (by decide) (by decide),
   (empresas_estabelecimentos_positional [" 1 ", "ACME "]).1.2.2.2.1 2 (by decide) (by decide)⟩

/-- C6 as stated fails: the column list of `loadEstabelecimentos` has 30 entries, and a record
of 20 fields gives a value list of 30 elements, not 29. -/
theorem estabelecimentos_29_columns_counterexample :
    (List.replicate 20 "x").length = 20
    ∧ estabelecimentosCols.length = 30
    ∧ (estabelecimentosVals (List.replicate 20 "x")).length = 30
    ∧ ¬ ((estabelecimentosVals (List.replicate 20 "x")).length = 29) := by
  decide

/-- C6 amended: the Establishment entity has 30 columns; a record of exactly 20 fields gives
a value list of 30 elements, the first 20 being the trimmed fields and the last 10 `nil`. -/
theorem estabelecimentos_20_fields (rec : List String) (h : rec.length = 20) :
    estabelecimentosCols.length = 30
    ∧ (estabelecimentosVals rec).length = 30
    ∧ (estabelecimentosVals rec).take 20 = rec.map (fun s => Value.text (TrimSpace s))
    ∧ (estabelecimentosVals rec).drop 20 = List.replicate 10 Value.null := by
  have hcols : estabelecimentosCols.length = 20 + 10 := by decide
  have hsplit : estabelecimentosVals rec
      = rec.map (fun s => Value.text (TrimSpace s)) ++ List.replicate 10 Value.null := by
    rw [estabelecimentosVals_eq, hcols, List.range_add, List.map_append, ← h, map_cell_range]
    congr 1
    rw [List.map_map]
    rw [List.eq_replicate_iff]
    refine ⟨by simp, ?_⟩
    intro b hb
    obtain ⟨j, _, rfl⟩ := List.mem_map.1 hb
    exact cell_of_le rec (rec.length + j) (by omega)
  refine ⟨by decide, ?_, ?_, ?_⟩
  · rw [hsplit]; simp [h]
  · rw [hsplit]
    rw [List.take_append_of_le_length (by simp [h])]
    rw [List.take_of_length_le (by simp [h])]
  · rw [hsplit]
    rw [List.drop_append_of_le_length (by simp [h])]
    rw [List.drop_of_length_le (by simp [h])]
    simp

/-- Witness of the amended C6 at a record of 20 fields. -/
theorem estabelecimentos_20_fields_witness :
    (estabelecimentosVals (List.replicate 20 " x ")).length = 30
    ∧ (estabelecimentosVals (List.replicate 20 " x ")).drop 20 = List.replicate 10 Value.null :=
  ⟨(estabelecimentos_20_fields (List.replicate 20 " x ") (by decide)).2.1,
   (estabelecimentos_20_fields (List.replicate 20 " x ") (by decide)).2.2.2⟩

/-- C7 as stated fails: for the one-field record `"0111301"` the second value built by
`loadCnaes` is the empty string, not `nil`. -/
theorem cnaes_one_field_null_counterexample :
    cnaesVals ["0111301"] = some [Value.text "0111301", Value.text ""]
    ∧ cnaesVals ["0111301"] ≠ some [Value.text "0111301", Value.null] := by
  decide

/-- C7 amended: for a record of exactly one field, `loadCnaes` and `loadMunicipios` build,
without error, a two-element value list whose second element is the empty string. -/
theorem cnaes_municipios_one_field (f : String) :
    cnaesVals [f] = some [Value.text (TrimSpace f), Value.text ""]
    ∧ municipiosVals [f] = some [Value.text (TrimSpace f), Value.text ""] := by
  constructor
  · rw [cnaesVals_eq [f] (by simp)]; rfl
  · rw [municipiosVals_eq [f] (by simp)]; rfl

/-! ## Lemmas on the bulk writer -/

theorem foldlM_cons_ok (stmt : Stmt) (t t1 : Table) (row : Row) (rows : List Row)
    (h : stmt t row = Except.ok t1) :
    (row :: rows).foldlM stmt t = rows.foldlM stmt t1 := by
  simp [List.foldlM_cons, h, bind, Except.bind]

theorem foldlM_cons_error (stmt : Stmt) (t : Table) (row : Row) (rows : List Row) (e : String)
    (h : stmt t row = Except.error e) :
    (row :: rows).foldlM stmt t = Except.error e := by
  simp [List.foldlM_cons, h, bind, Except.bind]

theorem execStmt_ok (stmt : Stmt) (c t t1 : Table) (calls : List TxCall) (row : Row)
    (h : stmt t row = Except.ok t1) :
    DB.execStmt stmt row (DB.mk c (some t) calls)
      = (Result.ok, DB.mk c (some t1) (calls ++ [TxCall.exec row])) := by
  simp [DB.execStmt, h]

theorem execStmt_error (stmt : Stmt) (c t : Table) (calls : List TxCall) (row : Row) (e : String)
    (h : stmt t row = Except.error e) :
    DB.execStmt stmt row (DB.mk c (some t) calls)
      = (Result.err e, DB.mk c (some t) (calls ++ [TxCall.exec row])) := by
  simp [DB.execStmt, h]

theorem readLoop_record_ok (build : List String → Option Row) (emit : Row → DB → Result × DB)
    (rec : List String) (rest : List ReadResult) (db db1 : DB) (row : Row)
    (hb : build rec = some row) (he : emit row db = (Result.ok, db1)) :
    readLoop build emit (ReadResult.record rec :: rest) db = readLoop build emit rest db1 := by
  simp [readLoop, hb, he]

theorem readLoop_record_err (build : List String → Option Row) (emit : Row → DB → Result × DB)
    (rec : List String) (rest : List ReadResult) (db db1 : DB) (row : Row) (e : String)
    (hb : build rec = some row) (he : emit row db = (Result.err e, db1)) :
    readLoop build emit (ReadResult.record rec :: rest) db = (Result.err e, db1) := by
  simp [readLoop, hb, he]

/-- The read loop over a run of records whose value lists are built and executed without
error advances the working copy and the call log and goes on with the rest. -/
theorem readLoop_records (build : List String → Option Row) (stmt : Stmt)
    (recs : List (List String)) :
    ∀ (rows : List Row) (t t1 : Table) (c : Table) (calls : List TxCall) (rest : List ReadResult),
      recs.map build = rows.map some → rows.foldlM stmt t = Except.ok t1 →
      readLoop build (DB.execStmt stmt)
          (recs.map ReadResult.record ++ rest) (DB.mk c (some t) calls)
        = readLoop build (DB.execStmt stmt) rest
            (DB.mk c (some t1) (calls ++ rows.map TxCall.exec)) := by
  induction recs with
  | nil =>
    intro rows t t1 c calls rest hb hf
    cases rows with
    | nil =>
      simp [pure, Except.pure] at hf
      subst hf
      simp
    | cons a l => simp at hb
  | cons rec recs ih =>
    intro rows t t1 c calls rest hb hf
    cases rows with
    | nil => simp at hb
    | cons row rows =>
      simp only [List.map_cons, List.cons.injEq] at hb
      cases hs : stmt t row with
      | error e => rw [foldlM_cons_error stmt t row rows e hs] at hf; cases hf
      | ok t2 =>
        rw [foldlM_cons_ok stmt t t2 row rows hs] at hf
        rw [List.map_cons, List.cons_append,
          readLoop_record_ok build (DB.execStmt stmt) rec _ _ _ row hb.1
            (execStmt_ok stmt c t t2 calls row hs),
          ih rows t2 t1 c (calls ++ [TxCall.exec row]) rest hb.2 hf]
        simp

/-- What the read loop leaves behind on any input: the committed rows untouched, the
transaction open, only `exec` calls added; and when it ends without error, every read was a
record whose value list was built and executed successfully. -/
theorem readLoop_inv (build : List String → Option Row) (stmt : Stmt) (reads : List ReadResult) :
    ∀ (t : Table) (c : Table) (calls : List TxCall),
      ∃ (rows : List Row) (t1 : Table),
        (readLoop build (DB.execStmt stmt) reads (DB.mk c (some t) calls)).2
          = DB.mk c (some t1) (calls ++ rows.map TxCall.exec)
        ∧ ((readLoop build (DB.execStmt stmt) reads (DB.mk c (some t) calls)).1 = Result.ok →
            ∃ recs : List (List String), reads = recs.map ReadResult.record
              ∧ recs.map build = rows.map some ∧ rows.foldlM stmt t = Except.ok t1) := by
  induction reads with
  | nil =>
    intro t c calls
    exact ⟨[], t, by simp [readLoop], fun _ => ⟨[], by simp, by simp, rfl⟩⟩
  | cons r reads ih =>
    intro t c calls
    cases r with
    | err e => exact ⟨[], t, by simp [readLoop], fun h => by simp [readLoop] at h⟩
    | record rec =>
      cases hb : build rec with
      | none => exact ⟨[], t, by simp [readLoop, hb], fun h => by simp [readLoop, hb] at h⟩
      | some row =>
        cases hs : stmt t row with
        | error e =>
          rw [readLoop_record_err build (DB.execStmt stmt) rec _ _ _ row e hb
            (execStmt_error stmt c t calls row e hs)]
          exact ⟨[row], t, by simp, fun h => by simp at h⟩
        | ok t2 =>
          rw [readLoop_record_ok build (DB.execStmt stmt) rec _ _ _ row hb
            (execStmt_ok stmt c t t2 calls row hs)]
          obtain ⟨rows, t1, h1, h2⟩ := ih t2 c (calls ++ [TxCall.exec row])
          refine ⟨row :: rows, t1, ?_, ?_⟩
          · rw [h1]; simp
          · intro h
            obtain ⟨recs, hr, hm, hf⟩ := h2 h
            refine ⟨rec :: recs, by simp [hr], by simp [hb, hm], ?_⟩
            rw [foldlM_cons_ok stmt t t2 row rows hs]
            exact hf

theorem txInsert_run (d : Driver) (table : String) (cols : List String) (stmt : Stmt)
    (iter : (Row → DB → Result × DB) → DB → Result × DB) (db : DB)
    (hbegin : d.beginErr = none) (hprep : d.prepare table cols = Except.ok stmt) :
    txInsert d table cols iter db
      = match iter (DB.execStmt stmt)
          (DB.mk db.committed (some db.committed)
            (db.calls ++ [TxCall.begin, TxCall.prepare])) with
        | (Result.err e, db3) => (Result.err e, db3.rollback)
        | (Result.panic, db3) => (Result.panic, db3)
        | (Result.ok, db3) =>
          match d.commitErr with
          | some e =>
            (Result.err e, DB.mk db3.committed db3.pending (db3.calls ++ [TxCall.commit]))
          | none => (Result.ok, db3.commit) := by
  simp [txInsert, hbegin, hprep, DB.beginTx]

theorem count_commit_exec (rows : List Row) : (rows.map TxCall.exec).count TxCall.commit = 0 := by
  induction rows with
  | nil => rfl
  | cons a l ih => simp [List.count_cons, ih]

theorem commit_not_mem_exec (rows : List Row) : TxCall.commit ∉ rows.map TxCall.exec := by
  simp

/-! ## Lemmas on insert-or-replace -/

theorem txInsert_ok (d : Driver) (table : String) (cols : List String) (stmt : Stmt)
    (build : List String → Option Row) (reads : List ReadResult) (db db1 : DB)
    (hprep : d.prepare table cols = Except.ok stmt)
    (h : txInsert d table cols (fun emit => readLoop build emit reads) db = (Result.ok, db1)) :
    d.beginErr = none ∧ d.commitErr = none
    ∧ ∃ (recs : List (List String)) (rows : List Row) (t : Table),
        reads = recs.map ReadResult.record ∧ recs.map build = rows.map some
        ∧ rows.foldlM stmt db.committed = Except.ok t
        ∧ db1 = DB.mk t none
            (db.calls ++ [TxCall.begin, TxCall.prepare] ++ rows.map TxCall.exec
              ++ [TxCall.commit]) := by
  cases hbegin : d.beginErr with
  | some e => simp [txInsert, hbegin] at h
  | none =>
    obtain ⟨rows, t1, h1, h2⟩ := readLoop_inv build stmt reads db.committed db.committed
      (db.calls ++ [TxCall.begin, TxCall.prepare])
    rw [txInsert_run d table cols stmt _ db hbegin hprep] at h
    generalize readLoop build (DB.execStmt stmt) reads
      (DB.mk db.committed (some db.committed) (db.calls ++ [TxCall.begin, TxCall.prepare]))
      = out at h1 h2 h
    obtain ⟨r, db3⟩ := out
    simp only at h1 h2
    subst h1
    cases r with
    | err e => simp at h
    | panic => simp at h
    | ok =>
      obtain ⟨recs, hr, hm, hf⟩ := h2 rfl
      cases hc : d.commitErr with
      | some e => simp [hc] at h
      | none =>
        simp only [hc, DB.commit, Option.getD_some, Prod.mk.injEq, true_and] at h
        exact ⟨rfl, rfl, recs, rows, t1, hr, hm, hf, h.symm⟩

theorem txInsert_success (d : Driver) (table : String) (cols : List String) (stmt : Stmt)
    (build : List String → Option Row) (db : DB) (recs : List (List String)) (rows : List Row)
    (t : Table) (hbegin : d.beginErr = none) (hprep : d.prepare table cols = Except.ok stmt)
    (hb : recs.map build = rows.map some) (hf : rows.foldlM stmt db.committed = Except.ok t)
    (hcommit : d.commitErr = none) :
    txInsert d table cols (fun emit => readLoop build emit (recs.map ReadResult.record)) db
      = (Result.ok, DB.mk t none
          (db.calls ++ [TxCall.begin, TxCall.prepare] ++ rows.map TxCall.exec
            ++ [TxCall.commit])) := by
  have h := readLoop_records build stmt recs rows db.committed t db.committed
    (db.calls ++ [TxCall.begin, TxCall.prepare]) [] hb hf
  rw [List.append_nil] at h
  rw [txInsert_run d table cols stmt _ db hbegin hprep, h]
  simp [readLoop, hcommit, DB.commit]

theorem foldlM_insertOrReplace (keyIdx : Option Nat) (rows : List Row) (t : Table) :
    rows.foldlM (fun t vals => (Except.ok (insertOrReplace keyIdx t vals) : Except String Table)) t
      = Except.ok (rows.foldl (insertOrReplace keyIdx) t) := by
  induction rows generalizing t with
  | nil => rfl
  | cons v l ih => simp [List.foldlM_cons, bind, Except.bind, ih]

theorem foldl_insert_no_key (rows : List Row) (t : Table) :
    rows.foldl (insertOrReplace none) t = t ++ rows := by
  induction rows generalizing t with
  | nil => simp
  | cons v l ih => simp [List.foldl_cons, ih, insertOrReplace]

theorem insert_keyed (t : Table) (v : Row) (s : String) (h : v[0]? = some (Value.text s)) :
    insertOrReplace (some 0) t v = t.filter (fun r => !hasKey s r) ++ [v] := by
  simp only [insertOrReplace, h]
  congr 2
  funext r
  simp [hasKey]

theorem mem_insertOrReplace (keyIdx : Option Nat) (t : Table) (v r : Row)
    (h : r ∈ insertOrReplace keyIdx t v) : r ∈ t ∨ r = v := by
  unfold insertOrReplace at h
  split at h
  · simpa using h
  · split at h
    · simp only [List.mem_append, List.mem_filter, List.mem_singleton] at h
      rcases h with h | h
      · exact Or.inl h.1
      · exact Or.inr h
    · simpa using h

theorem mem_foldl_insert (keyIdx : Option Nat) (rows : List Row) (t : Table) (r : Row)
    (h : r ∈ rows.foldl (insertOrReplace keyIdx) t) : r ∈ t ∨ r ∈ rows := by
  induction rows generalizing t with
  | nil => exact Or.inl (by simpa using h)
  | cons v l ih =>
    rw [List.foldl_cons] at h
    rcases ih _ h with h1 | h1
    · rcases mem_insertOrReplace keyIdx t v r h1 with h2 | h2
      · exact Or.inl h2
      · exact Or.inr (by simp [h2])
    · exact Or.inr (by simp [h1])

theorem keyInFile_of_mem (rows : List Row) (r : Row) (h : r ∈ rows) : keyInFile rows r = true := by
  simp only [keyInFile, List.any_eq_true]
  exact ⟨r, h, by simp⟩

/-- Closed form of a run of keyed insert-or-replace executions: the stored rows whose key does
not occur among the new rows, followed by what the same run leaves in an empty table. -/
theorem foldl_insert_closed (rows : List Row)
    (hkey : ∀ v ∈ rows, ∃ s, v[0]? = some (Value.text s)) (t : Table) :
    rows.foldl (insertOrReplace (some 0)) t
      = t.filter (fun r => !keyInFile rows r) ++ rows.foldl (insertOrReplace (some 0)) [] := by
  induction rows generalizing t with
  | nil => simp [keyInFile]
  | cons v l ih =>
    have hl : ∀ w ∈ l, ∃ s, w[0]? = some (Value.text s) := fun w hw => hkey w (by simp [hw])
    obtain ⟨s, hs⟩ := hkey v (by simp)
    rw [List.foldl_cons, List.foldl_cons, ih hl (insertOrReplace (some 0) t v),
      ih hl (insertOrReplace (some 0) [] v), insert_keyed t v s hs, insert_keyed [] v s hs]
    simp only [List.filter_append, List.filter_filter, List.filter_nil, List.nil_append,
      List.append_assoc]
    congr 1
    apply List.filter_congr
    intro r _
    simp only [keyInFile, hasKey, hs, List.any_cons, Bool.not_or, Bool.decide_eq_true,
      decide_not, Bool.and_comm]

theorem foldl_insert_twice (rows : List Row)
    (hkey : ∀ v ∈ rows, ∃ s, v[0]? = some (Value.text s)) (t : Table) :
    rows.foldl (insertOrReplace (some 0)) (rows.foldl (insertOrReplace (some 0)) t)
      = rows.foldl (insertOrReplace (some 0)) t := by
  have hnew : (rows.foldl (insertOrReplace (some 0)) []).filter (fun r => !keyInFile rows r)
      = [] := by
    rw [List.filter_eq_nil_iff]
    intro r hr
    rcases mem_foldl_insert (some 0) rows [] r hr with h | h
    · simp at h
    · simp [keyInFile_of_mem rows r h]
  rw [foldl_insert_closed rows hkey (rows.foldl (insertOrReplace (some 0)) t),
    foldl_insert_closed rows hkey t]
  simp only [List.filter_append, List.filter_filter, hnew, List.append_nil, Bool.and_self]

theorem foldl_insert_others (rows : List Row)
    (hkey : ∀ v ∈ rows, ∃ s, v[0]? = some (Value.text s)) (t : Table) :
    (rows.foldl (insertOrReplace (some 0)) t).filter (fun r => !keyInFile rows r)
      = t.filter (fun r => !keyInFile rows r) := by
  have hnew : (rows.foldl (insertOrReplace (some 0)) []).filter (fun r => !keyInFile rows r)
      = [] := by
    rw [List.filter_eq_nil_iff]
    intro r hr
    rcases mem_foldl_insert (some 0) rows [] r hr with h | h
    · simp at h
    · simp [keyInFile_of_mem rows r h]
  rw [foldl_insert_closed rows hkey t]
  simp only [List.filter_append, List.filter_filter, hnew, List.append_nil, Bool.and_self]

theorem foldl_insert_last (rows : List Row)
    (hkey : ∀ v ∈ rows, ∃ s, v[0]? = some (Value.text s)) (t : Table) (s : String)
    (hs : ∃ v ∈ rows, v[0]? = some (Value.text s)) :
    ∃ last, (rows.filter (hasKey s)).getLast? = some last
      ∧ (rows.foldl (insertOrReplace (some 0)) t).filter (hasKey s) = [last] := by
  induction rows using List.reverseRecOn with
  | nil => obtain ⟨v, hv, _⟩ := hs; simp at hv
  | append_singleton init v ih =>
    obtain ⟨k, hk⟩ := hkey v (by simp)
    rw [List.foldl_append, List.foldl_cons, List.foldl_nil, insert_keyed _ v k hk]
    by_cases hsk : s = k
    · subst hsk
      have hv : hasKey s v = true := by simp [hasKey, hk]
      refine ⟨v, ?_, ?_⟩
      · simp [List.filter_append, List.filter_cons, hv]
      · simp [List.filter_append, List.filter_filter, List.filter_cons, hv]
    · have hv : hasKey s v = false := by
        simp only [hasKey, hk, decide_eq_false_iff_not, Option.some.injEq, Value.text.injEq]
        exact fun h => hsk h.symm
      have hinit : ∃ w ∈ init, w[0]? = some (Value.text s) := by
        obtain ⟨w, hw, hws⟩ := hs
        rcases List.mem_append.1 hw with h | h
        · exact ⟨w, h, hws⟩
        · simp only [List.mem_singleton] at h
          subst h
          rw [hk] at hws
          simp only [Option.some.injEq, Value.text.injEq] at hws
          exact absurd hws.symm hsk
      obtain ⟨last, h1, h2⟩ := ih (fun w hw => hkey w (by simp [hw])) hinit
      refine ⟨last, ?_, ?_⟩
      · simpa [List.filter_append, List.filter_cons, hv] using h1
      · simp only [List.filter_append, List.filter_filter, List.filter_cons, hv, List.filter_nil,
          List.append_nil, Bool.false_eq_true, if_false]
        rw [← h2]
        apply List.filter_congr
        intro r _
        by_cases hr : hasKey s r = true
        · have hkr : hasKey k r = false := by
            simp only [hasKey, decide_eq_true_eq] at hr
            simp only [hasKey, hr, decide_eq_false_iff_not, Option.some.injEq, Value.text.injEq]
            exact hsk
          simp [hr, hkr]
        · simp [hr]

theorem keyed_vals_key (k : KeyedKind) (rec : List String) (row : Row)
    (h : k.vals rec = some row) (hne : rec ≠ []) :
    row[0]? = some (Value.text (TrimSpace (rec.headD ""))) := by
  cases rec with
  | nil => exact absurd rfl hne
  | cons a l =>
    cases k with
    | empresas =>
      simp only [KeyedKind.vals, Option.some.injEq] at h
      subst h
      rw [empresasVals_eq]
      rfl
    | cnaes =>
      simp only [KeyedKind.vals, cnaesVals, Option.some.injEq] at h
      subst h
      rfl
    | municipios =>
      simp only [KeyedKind.vals, municipiosVals, Option.some.injEq] at h
      subst h
      rfl

theorem keyed_rows_keys (k : KeyedKind) (recs : List (List String)) :
    ∀ rows : List Row, recs.map k.vals = rows.map some → (∀ rec ∈ recs, rec ≠ []) →
      rows.map (fun v => v[0]?)
        = recs.map (fun rec => some (Value.text (TrimSpace (rec.headD "")))) := by
  induction recs with
  | nil =>
    intro rows h _
    cases rows with
    | nil => rfl
    | cons a l => simp at h
  | cons rec recs ih =>
    intro rows h hne
    cases rows with
    | nil => simp at h
    | cons row rows =>
      simp only [List.map_cons, List.cons.injEq] at h
      simp only [List.map_cons, List.cons.injEq]
      exact ⟨keyed_vals_key k rec row h.1 (hne rec (by simp)),
        ih rows h.2 (fun r hr => hne r (by simp [hr]))⟩

theorem keyed_core (k : KeyedKind) (table : String) (cols : List String)
    (hprep : sqlitePrepare table cols
      = Except.ok (fun t vals => Except.ok (insertOrReplace (some 0) t vals)))
    (beginErr commitErr : Option String) (reads : List ReadResult) (db db1 : DB)
    (hrec : ∀ rec, ReadResult.record rec ∈ reads → rec ≠ [])
    (hload : txInsert (sqlite beginErr commitErr) table cols
      (fun emit => readLoop k.vals emit reads) db = (Result.ok, db1)) :
    ∃ (recs : List (List String)) (rows : List Row),
      reads = recs.map ReadResult.record
      ∧ recs.map k.vals = rows.map some
      ∧ rows.map (fun v => v[0]?)
          = recs.map (fun rec => some (Value.text (TrimSpace (rec.headD ""))))
      ∧ (∀ s, (∃ v ∈ rows, v[0]? = some (Value.text s)) →
          ∃ last, (rows.filter (hasKey s)).getLast? = some last
            ∧ db1.committed.filter (hasKey s) = [last])
      ∧ db1.committed.filter (fun r => !keyInFile rows r)
          = db.committed.filter (fun r => !keyInFile rows r)
      ∧ ∃ db2, txInsert (sqlite beginErr commitErr) table cols
            (fun emit => readLoop k.vals emit reads) db1 = (Result.ok, db2)
          ∧ db2.committed = db1.committed := by
  obtain ⟨hb, hc, recs, rows, t, hreads, hmap, hfold, hdb1⟩ :=
    txInsert_ok (sqlite beginErr commitErr) table cols _ k.vals reads db db1 hprep hload
  rw [foldlM_insertOrReplace] at hfold
  have ht : t = rows.foldl (insertOrReplace (some 0)) db.committed := by
    injection hfold with h; exact h.symm
  have hne : ∀ rec ∈ recs, rec ≠ [] := by
    intro rec hr
    apply hrec rec
    rw [hreads]
    exact List.mem_map.2 ⟨rec, hr, rfl⟩
  have hkeys := keyed_rows_keys k recs rows hmap hne
  have hkey : ∀ v ∈ rows, ∃ s, v[0]? = some (Value.text s) := by
    intro v hv
    have h1 : v[0]? ∈ rows.map (fun v => v[0]?) := List.mem_map.2 ⟨v, hv, rfl⟩
    rw [hkeys] at h1
    obtain ⟨rec, _, h2⟩ := List.mem_map.1 h1
    exact ⟨_, h2.symm⟩
  have hc1 : db1.committed = rows.foldl (insertOrReplace (some 0)) db.committed := by
    rw [hdb1, ht]
  refine ⟨recs, rows, hreads, hmap, hkeys, ?_, ?_, ?_⟩
  · intro s hs
    rw [hc1]
    exact foldl_insert_last rows hkey db.committed s hs
  · rw [hc1]
    exact foldl_insert_others rows hkey db.committed
  · have h2 := txInsert_success (sqlite beginErr commitErr) table cols _ k.vals db1 recs rows
      (rows.foldl (insertOrReplace (some 0)) db1.committed) hb hprep hmap
      (foldlM_insertOrReplace (some 0) rows db1.committed) hc
    rw [← hreads] at h2
    refine ⟨_, h2, ?_⟩
    simp only
    rw [hc1]
    exact foldl_insert_twice rows hkey db.committed

theorem estabelecimentos_core (beginErr commitErr : Option String) (reads : List ReadResult)
    (db db1 : DB)
    (hload : txInsert (sqlite beginErr commitErr) "estabelecimentos" estabelecimentosCols
      (fun emit => readLoop (fun rec => some (estabelecimentosVals rec)) emit reads) db
        = (Result.ok, db1)) :
    beginErr = none ∧ commitErr = none ∧
    ∃ recs : List (List String), reads = recs.map ReadResult.record
      ∧ db1 = DB.mk (db.committed ++ recs.map estabelecimentosVals) none
          (db.calls ++ [TxCall.begin, TxCall.prepare]
            ++ (recs.map estabelecimentosVals).map TxCall.exec ++ [TxCall.commit]) := by
  obtain ⟨hb, hc, recs, rows, t, hreads, hmap, hfold, hdb1⟩ :=
    txInsert_ok (sqlite beginErr commitErr) "estabelecimentos" estabelecimentosCols _ _ reads
      db db1 sqlitePrepare_estabelecimentos hload
  rw [foldlM_insertOrReplace, foldl_insert_no_key] at hfold
  have ht : t = db.committed ++ rows := by
    injection hfold with h; exact h.symm
  have hrows : rows = recs.map estabelecimentosVals := by
    have h1 : (recs.map estabelecimentosVals).map some = rows.map some := by
      rw [← hmap, List.map_map]; rfl
    exact (List.map_injective_iff.2 (Option.some_injective _) h1).symm
  subst hrows
  subst ht
  exact ⟨hb, hc, recs, hreads, hdb1⟩

/-! ## Claim on the bulk writer -/

/-- C3: `txInsert` is all-or-nothing per file. Once the transaction is begun and the
statement prepared: when the record source reports an error, or one execution fails, after
any number of records loaded without error, `Rollback` is called, that error is returned, the
transaction is closed and the committed rows are the initial ones; when all reads are records
that execute without error and the source is exhausted, `Commit` is called and the committed
rows are the result of all executions. On every input `Commit` is called at most once, and
only in that last situation; and whenever the result is not `nil` the committed rows are the
initial ones. -/
theorem txInsert_all_or_nothing (d : Driver) (table : String) (cols : List String)
    (build : List String → Option Row) (db : DB) :
    (∀ (stmt : Stmt) (recs : List (List String)) (rows : List Row) (e : String)
        (rest : List ReadResult) (t : Table),
        d.beginErr = none → d.prepare table cols = Except.ok stmt →
        recs.map build = rows.map some → rows.foldlM stmt db.committed = Except.ok t →
        txInsert d table cols
            (fun emit => readLoop build emit
              (recs.map ReadResult.record ++ ReadResult.err e :: rest)) db
          = (Result.err e, DB.mk db.committed none
              (db.calls ++ [TxCall.begin, TxCall.prepare] ++ rows.map TxCall.exec
                ++ [TxCall.rollback])))
    ∧ (∀ (stmt : Stmt) (recs : List (List String)) (rows : List Row) (rec : List String)
        (row : Row) (e : String) (rest : List ReadResult) (t : Table),
        d.beginErr = none → d.prepare table cols = Except.ok stmt →
        recs.map build = rows.map some → rows.foldlM stmt db.committed = Except.ok t →
        build rec = some row → stmt t row = Except.error e →
        txInsert d table cols
            (fun emit => readLoop build emit
              (recs.map ReadResult.record ++ ReadResult.record rec :: rest)) db
          = (Result.err e, DB.mk db.committed none
              (db.calls ++ [TxCall.begin, TxCall.prepare] ++ rows.map TxCall.exec
                ++ [TxCall.exec row, TxCall.rollback])))
    ∧ (∀ (stmt : Stmt) (recs : List (List String)) (rows : List Row) (t : Table),
        d.beginErr = none → d.prepare table cols = Except.ok stmt →
        recs.map build = rows.map some → rows.foldlM stmt db.committed = Except.ok t →
        d.commitErr = none →
        txInsert d table cols (fun emit => readLoop build emit (recs.map ReadResult.record)) db
          = (Result.ok, DB.mk t none
              (db.calls ++ [TxCall.begin, TxCall.prepare] ++ rows.map TxCall.exec
                ++ [TxCall.commit])))
    ∧ (∀ reads : List ReadResult, ∃ new : List TxCall,
        (txInsert d table cols (fun emit => readLoop build emit reads) db).2.calls
          = db.calls ++ new
        ∧ new.count TxCall.commit ≤ 1
        ∧ (TxCall.commit ∈ new →
            ∃ (stmt : Stmt) (recs : List (List String)) (rows : List Row) (t : Table),
              d.beginErr = none ∧ d.prepare table cols = Except.ok stmt
              ∧ reads = recs.map ReadResult.record ∧ recs.map build = rows.map some
              ∧ rows.foldlM stmt db.committed = Except.ok t))
    ∧ (∀ reads : List ReadResult,
        (txInsert d table cols (fun emit => readLoop build emit reads) db).1 ≠ Result.ok →
        (txInsert d table cols (fun emit => readLoop build emit reads) db).2.committed
          = db.committed) := by
  refine ⟨?_, ?_, ?_, ?_, ?_⟩
  · intro stmt recs rows e rest t hbegin hprep hb hf
    rw [txInsert_run d table cols stmt _ db hbegin hprep,
      readLoop_records build stmt recs rows db.committed t db.committed _ _ hb hf]
    simp [readLoop, DB.rollback]
  · intro stmt recs rows rec row e rest t hbegin hprep hb hf hrow he
    rw [txInsert_run d table cols stmt _ db hbegin hprep,
      readLoop_records build stmt recs rows db.committed t db.committed _ _ hb hf,
      readLoop_record_err build (DB.execStmt stmt) rec _ _ _ row e hrow
        (execStmt_error stmt _ t _ row e he)]
    simp [DB.rollback]
  · intro stmt recs rows t hbegin hprep hb hf hcommit
    have h := readLoop_records build stmt recs rows db.committed t db.committed
      (db.calls ++ [TxCall.begin, TxCall.prepare]) [] hb hf
    rw [List.append_nil] at h
    rw [txInsert_run d table cols stmt _ db hbegin hprep, h]
    simp [readLoop, hcommit, DB.commit]
  · intro reads
    cases hbegin : d.beginErr with
    | some e => exact ⟨[], by simp [txInsert, hbegin], by simp, by simp⟩
    | none =>
      cases hprep : d.prepare table cols with
      | error e =>
        exact ⟨[TxCall.begin, TxCall.prepare, TxCall.rollback],
          by simp [txInsert, hbegin, hprep, DB.beginTx, DB.rollback], by decide,
          fun h => by simp at h⟩
      | ok stmt =>
        obtain ⟨rows, t1, h1, h2⟩ := readLoop_inv build stmt reads db.committed db.committed
          (db.calls ++ [TxCall.begin, TxCall.prepare])
        rw [txInsert_run d table cols stmt _ db hbegin hprep]
        generalize readLoop build (DB.execStmt stmt) reads
          (DB.mk db.committed (some db.committed) (db.calls ++ [TxCall.begin, TxCall.prepare]))
          = out at h1 h2
        obtain ⟨r, db3⟩ := out
        simp only at h1 h2
        subst h1
        cases r with
        | err e =>
          refine ⟨[TxCall.begin, TxCall.prepare] ++ rows.map TxCall.exec ++ [TxCall.rollback],
            by simp [DB.rollback], ?_, ?_⟩
          · simp [List.count_append, count_commit_exec, List.count_cons]
          · intro h; simp at h
        | panic =>
          refine ⟨[TxCall.begin, TxCall.prepare] ++ rows.map TxCall.exec, by simp, ?_, ?_⟩
          · simp [List.count_append, count_commit_exec, List.count_cons]
          · intro h; simp at h
        | ok =>
          obtain ⟨recs, hr, hm, hf⟩ := h2 rfl
          refine ⟨[TxCall.begin, TxCall.prepare] ++ rows.map TxCall.exec ++ [TxCall.commit],
            ?_, ?_, ?_⟩
          · cases hc : d.commitErr <;> simp [DB.commit]
          · simp [List.count_append, count_commit_exec, List.count_cons]
          · intro _
            exact ⟨stmt, recs, rows, t1, rfl, rfl, hr, hm, hf⟩
  · intro reads hne
    cases hbegin : d.beginErr with
    | some e => simp [txInsert, hbegin]
    | none =>
      cases hprep : d.prepare table cols with
      | error e => simp [txInsert, hbegin, hprep, DB.beginTx, DB.rollback]
      | ok stmt =>
        obtain ⟨rows, t1, h1, _⟩ := readLoop_inv build stmt reads db.committed db.committed
          (db.calls ++ [TxCall.begin, TxCall.prepare])
        rw [txInsert_run d table cols stmt _ db hbegin hprep] at hne ⊢
        generalize readLoop build (DB.execStmt stmt) reads
          (DB.mk db.committed (some db.committed) (db.calls ++ [TxCall.begin, TxCall.prepare]))
          = out at h1 hne
        obtain ⟨r, db3⟩ := out
        simp only at h1
        subst h1
        cases r with
        | err e => simp [DB.rollback]
        | panic => simp
        | ok =>
          cases hc : d.commitErr with
          | some e => simp
          | none => simp [hc] at hne

/-- Witness of C3 on a store with a `NOT NULL` constraint: a read error after one loaded
record, and a failing execution after one loaded record, both end in a rollback with the
committed rows as they were. -/
theorem txInsert_all_or_nothing_witness :
    txInsert notNullDriver "t" ["a"]
        (fun emit => readLoop sampleBuild emit
          ([["1"]].map ReadResult.record ++ ReadResult.err "read failed" :: [])) sampleDB
      = (Result.err "read failed", DB.mk sampleDB.committed none
          (sampleDB.calls ++ [TxCall.begin, TxCall.prepare]
            ++ [[Value.text "1"]].map TxCall.exec ++ [TxCall.rollback]))
    ∧ txInsert notNullDriver "t" ["a"]
        (fun emit => readLoop sampleBuild emit
          ([["1"]].map ReadResult.record ++ ReadResult.record [""] :: [ReadResult.record ["2"]]))
        sampleDB
      = (Result.err "NOT NULL constraint failed", DB.mk sampleDB.committed none
          (sampleDB.calls ++ [TxCall.begin, TxCall.prepare]
            ++ [[Value.text "1"]].map TxCall.exec ++ [TxCall.exec [Value.null], TxCall.rollback])) :=
  ⟨(txInsert_all_or_nothing notNullDriver "t" ["a"] sampleBuild sampleDB).1 notNullStmt
      [["1"]] [[Value.text "1"]] "read failed" [] (sampleDB.committed ++ [[Value.text "1"]])
      rfl rfl rfl rfl,
   (txInsert_all_or_nothing notNullDriver "t" ["a"] sampleBuild sampleDB).2.1 notNullStmt
      [["1"]] [[Value.text "1"]] [""] [Value.null] "NOT NULL constraint failed"
      [ReadResult.record ["2"]] (sampleDB.committed ++ [[Value.text "1"]])
      rfl rfl rfl rfl rfl rfl⟩

/-! ## Claims on keyed and unkeyed loads -/

/-- C4: for the keyed tables (`empresas`, `cnaes`, `municipios`) and a file whose records
have at least one field (as every record of the CSV decoder has), a successful load means all
reads were records; the key of each value list is the trimmed first field; for every key in
the file the table then holds exactly one row with that key, the value list of the last
record with it; the rows whose key is not in the file are those of the initial state; and
loading the same file again succeeds and leaves the same table content. -/
theorem keyed_load_last_write_wins (k : KeyedKind) (beginErr commitErr : Option String)
    (f : CsvFile) (db db1 : DB)
    (hrec : ∀ rec, ReadResult.record rec ∈ f.reads → rec ≠ [])
    (hload : k.load (sqlite beginErr commitErr) f db = (Result.ok, db1)) :
    ∃ (recs : List (List String)) (rows : List Row),
      f.reads = recs.map ReadResult.record
      ∧ recs.map k.vals = rows.map some
      ∧ rows.map (fun v => v[0]?)
          = recs.map (fun rec => some (Value.text (TrimSpace (rec.headD ""))))
      ∧ (∀ s, (∃ v ∈ rows, v[0]? = some (Value.text s)) →
          ∃ last, (rows.filter (hasKey s)).getLast? = some last
            ∧ db1.committed.filter (hasKey s) = [last])
      ∧ db1.committed.filter (fun r => !keyInFile rows r)
          = db.committed.filter (fun r => !keyInFile rows r)
      ∧ ∃ db2, k.load (sqlite beginErr commitErr) f db1 = (Result.ok, db2)
          ∧ db2.committed = db1.committed := by
  cases hopen : f.openErr with
  | some e =>
    cases k <;>
      simp [KeyedKind.load, loadEmpresas, loadCnaes, loadMunicipios, hopen] at hload
  | none =>
    cases k with
    | empresas =>
      simp only [KeyedKind.load, loadEmpresas, hopen] at hload ⊢
      exact keyed_core KeyedKind.empresas "empresas" empresasCols sqlitePrepare_empresas
        beginErr commitErr f.reads db db1 hrec hload
    | cnaes =>
      simp only [KeyedKind.load, loadCnaes, hopen] at hload ⊢
      exact keyed_core KeyedKind.cnaes "cnaes" cnaesCols sqlitePrepare_cnaes
        beginErr commitErr f.reads db db1 hrec hload
    | municipios =>
      simp only [KeyedKind.load, loadMunicipios, hopen] at hload ⊢
      exact keyed_core KeyedKind.municipios "municipios" municipiosCols sqlitePrepare_municipios
        beginErr commitErr f.reads db db1 hrec hload

/-- Witness of C4: loading `sampleCnaes` into `sampleDB` succeeds, and the properties of C4
hold of the state it leaves. -/
theorem keyed_load_last_write_wins_witness :
    KeyedKind.cnaes.load (sqlite none none) sampleCnaes sampleDB
      = (Result.ok, (KeyedKind.cnaes.load (sqlite none none) sampleCnaes sampleDB).2)
    ∧ (KeyedKind.cnaes.load (sqlite none none) sampleCnaes sampleDB).2.committed
      = [[Value.text "9", Value.text "z"], [Value.text "2", Value.text "b"],
          [Value.text "1", Value.text "c"]]
    ∧ ∃ (recs : List (List String)) (rows : List Row),
      sampleCnaes.reads = recs.map ReadResult.record
      ∧ recs.map KeyedKind.cnaes.vals = rows.map some
      ∧ rows.map (fun v => v[0]?)
          = recs.map (fun rec => some (Value.text (TrimSpace (rec.headD ""))))
      ∧ (∀ s, (∃ v ∈ rows, v[0]? = some (Value.text s)) →
          ∃ last, (rows.filter (hasKey s)).getLast? = some last
            ∧ (KeyedKind.cnaes.load (sqlite none none) sampleCnaes sampleDB).2.committed.filter
                (hasKey s) = [last])
      ∧ (KeyedKind.cnaes.load (sqlite none none) sampleCnaes sampleDB).2.committed.filter
            (fun r => !keyInFile rows r)
          = sampleDB.committed.filter (fun r => !keyInFile rows r)
      ∧ ∃ db2, KeyedKind.cnaes.load (sqlite none none) sampleCnaes
            (KeyedKind.cnaes.load (sqlite none none) sampleCnaes sampleDB).2 = (Result.ok, db2)
          ∧ db2.committed
            = (KeyedKind.cnaes.load (sqlite none none) sampleCnaes sampleDB).2.committed :=
  ⟨by decide, by decide,
   keyed_load_last_write_wins KeyedKind.cnaes none none sampleCnaes sampleDB
    (KeyedKind.cnaes.load (sqlite none none) sampleCnaes sampleDB).2
    (by
      intro rec h
      simp only [sampleCnaes, List.mem_cons, ReadResult.record.injEq, List.mem_nil_iff,
        or_false] at h
      rcases h with h | h | h <;> simp [h])
    (by decide)⟩

/-- C5 as stated fails: loading the one-record file `sampleEstabelecimentos` into the empty
table once leaves one row, loading it a second time leaves two rows. -/
theorem estabelecimentos_idempotent_counterexample :
    (loadEstabelecimentos (sqlite none none) sampleEstabelecimentos emptyDB).1 = Result.ok
    ∧ (loadEstabelecimentos (sqlite none none) sampleEstabelecimentos
        (loadEstabelecimentos (sqlite none none) sampleEstabelecimentos emptyDB).2).1 = Result.ok
    ∧ (loadEstabelecimentos (sqlite none none) sampleEstabelecimentos emptyDB).2.committed.length
        = 1
    ∧ (loadEstabelecimentos (sqlite none none) sampleEstabelecimentos
        (loadEstabelecimentos (sqlite none none) sampleEstabelecimentos emptyDB).2).2.committed.length
        = 2
    ∧ (loadEstabelecimentos (sqlite none none) sampleEstabelecimentos
        (loadEstabelecimentos (sqlite none none) sampleEstabelecimentos emptyDB).2).2.committed
        ≠ (loadEstabelecimentos (sqlite none none) sampleEstabelecimentos emptyDB).2.committed := by
  decide

/-- C5 amended: the `estabelecimentos` table declares no key, so a successful load appends
one row per record, in file order, to the initial rows; loading the same file again succeeds
and appends the same rows once more, so the content after two loads equals the content after
one load exactly when the file has no record. -/
theorem estabelecimentos_load_appends (beginErr commitErr : Option String) (f : CsvFile)
    (db db1 : DB)
    (hload : loadEstabelecimentos (sqlite beginErr commitErr) f db = (Result.ok, db1)) :
    ∃ recs : List (List String),
      f.reads = recs.map ReadResult.record
      ∧ db1.committed = db.committed ++ recs.map estabelecimentosVals
      ∧ ∃ db2, loadEstabelecimentos (sqlite beginErr commitErr) f db1 = (Result.ok, db2)
          ∧ db2.committed
            = db.committed ++ recs.map estabelecimentosVals ++ recs.map estabelecimentosVals
          ∧ (db2.committed = db1.committed ↔ recs = []) := by
  cases hopen : f.openErr with
  | some e => simp [loadEstabelecimentos, hopen] at hload
  | none =>
    simp only [loadEstabelecimentos, hopen] at hload ⊢
    obtain ⟨hb, hc, recs, hreads, hdb1⟩ :=
      estabelecimentos_core beginErr commitErr f.reads db db1 hload
    have h2 := txInsert_success (sqlite beginErr commitErr) "estabelecimentos"
      estabelecimentosCols _ (fun rec => some (estabelecimentosVals rec)) db1 recs
      (recs.map estabelecimentosVals) (db1.committed ++ recs.map estabelecimentosVals)
      (by simp [sqlite, hb]) sqlitePrepare_estabelecimentos (by simp [List.map_map])
      (by rw [foldlM_insertOrReplace, foldl_insert_no_key]) (by simp [sqlite, hc])
    rw [← hreads] at h2
    have hc1 : db1.committed = db.committed ++ recs.map estabelecimentosVals := by rw [hdb1]
    refine ⟨recs, hreads, hc1, _, h2, ?_, ?_⟩
    · simp only [hc1]
    · simp only [hc1]
      constructor
      · intro h
        have h3 := congrArg List.length h
        simp only [List.length_append, List.length_map] at h3
        exact List.length_eq_zero.1 (by omega)
      · intro h
        simp [h]

/-- Witness of the amended C5 at the one-record file `sampleEstabelecimentos` and the empty
table. -/
theorem estabelecimentos_load_appends_witness :
    loadEstabelecimentos (sqlite none none) sampleEstabelecimentos emptyDB
      = (Result.ok, (loadEstabelecimentos (sqlite none none) sampleEstabelecimentos emptyDB).2)
    ∧ ∃ recs : List (List String),
      sampleEstabelecimentos.reads = recs.map ReadResult.record
      ∧ (loadEstabelecimentos (sqlite none none) sampleEstabelecimentos emptyDB).2.committed
          = emptyDB.committed ++ recs.map estabelecimentosVals
      ∧ ∃ db2, loadEstabelecimentos (sqlite none none) sampleEstabelecimentos
            (loadEstabelecimentos (sqlite none none) sampleEstabelecimentos emptyDB).2
              = (Result.ok, db2)
          ∧ db2.committed
            = emptyDB.committed ++ recs.map estabelecimentosVals
                ++ recs.map estabelecimentosVals
          ∧ (db2.committed
              = (loadEstabelecimentos (sqlite none none) sampleEstabelecimentos
                  emptyDB).2.committed ↔ recs = []) :=
  ⟨by decide,
   estabelecimentos_load_appends none none sampleEstabelecimentos emptyDB
    (loadEstabelecimentos (sqlite none none) sampleEstabelecimentos emptyDB).2 (by decide)⟩

/-! ## Lemmas on the extractor -/

theorem fileContent_filter (files : List (String × List UInt8)) (n k : String) (h : k ≠ n) :
    fileContent (files.filter (fun p => !decide (p.1 = n))) k = fileContent files k := by
  induction files with
  | nil => rfl
  | cons p rest ih =>
    obtain ⟨m, c⟩ := p
    by_cases hm : m = n
    · subst hm
      have hk : ¬ m = k := fun e => h e.symm
      simp [List.filter_cons, fileContent, hk, ih]
    · simp [List.filter_cons, hm, fileContent, ih]

theorem fileContent_writeFile (files : List (String × List UInt8)) (n k : String)
    (c : List UInt8) :
    fileContent (writeFile files n c) k = if k = n then some c else fileContent files k := by
  by_cases h : k = n
  · subst h
    simp [writeFile, fileContent]
  · have h2 : ¬ n = k := fun e => h e.symm
    simp [writeFile, fileContent, h, h2, fileContent_filter files n k h]

theorem fileContent_none_of_statOk (files : List (String × List UInt8)) (n : String)
    (h : statOk files n = false) : fileContent files n = none := by
  simp only [statOk, Bool.or_eq_false_iff] at h
  simpa using h.2

/-- Outcome of the loop body of `unzip`: the state is unchanged, or the entry was opened and
the state differs at most in the file named by the flattened name, which did not exist. -/
theorem unzipEntry_cases (os : FsEnv) (f : ZipEntry) (st : Dest) :
    (unzipEntry os f st).2 = st
    ∨ (flatName f.name ≠ "" ∧ statOk st.files (flatName f.name) = false
        ∧ (unzipEntry os f st).2.opened = st.opened ++ [f.name]
        ∧ ((unzipEntry os f st).2.files = st.files
          ∨ ∃ c, (unzipEntry os f st).2.files = writeFile st.files (flatName f.name) c)) := by
  unfold unzipEntry
  by_cases hn : flatName f.name = ""
  · simp [hn]
  · cases hm : os.mkdirErr with
    | some e => simp [hn, hm]
    | none =>
      cases hs : statOk st.files (flatName f.name) with
      | true => simp [hn, hm, hs]
      | false =>
        right
        refine ⟨hn, rfl, ?_⟩
        cases ho : f.openErr with
        | some e => simp [hn, hm, hs, ho]
        | none =>
          cases hc : os.createErr (flatName f.name) with
          | some e => simp [hn, hm, hs, ho, hc]
          | none =>
            cases hcp : f.copyErr with
            | some ne =>
              obtain ⟨n, e⟩ := ne
              simp [hn, hm, hs, ho, hc, hcp]
            | none => simp [hn, hm, hs, ho, hc, hcp]

theorem unzipEntry_other (os : FsEnv) (f : ZipEntry) (st : Dest) (k : String)
    (hk : k ≠ flatName f.name) :
    fileContent (unzipEntry os f st).2.files k = fileContent st.files k := by
  rcases unzipEntry_cases os f st with h | ⟨_, _, _, h | ⟨c, h⟩⟩
  · rw [h]
  · rw [h]
  · rw [h, fileContent_writeFile, if_neg hk]

theorem unzipEntry_keeps (os : FsEnv) (f : ZipEntry) (st : Dest) (k : String) (c : List UInt8)
    (h : fileContent st.files k = some c) :
    fileContent (unzipEntry os f st).2.files k = some c := by
  by_cases hk : k = flatName f.name
  · rcases unzipEntry_cases os f st with h1 | ⟨_, hs, _, _⟩
    · rw [h1]; exact h
    · subst hk
      rw [fileContent_none_of_statOk _ _ hs] at h
      cases h
  · rw [unzipEntry_other os f st k hk]; exact h

theorem statOk_of_content (files files1 : List (String × List UInt8)) (n : String)
    (h : ∀ c, fileContent files n = some c → fileContent files1 n = some c)
    (hs : statOk files n = true) : statOk files1 n = true := by
  simp only [statOk, Bool.or_eq_true] at hs ⊢
  rcases hs with hs | hs
  · exact Or.inl hs
  · right
    obtain ⟨c, hc⟩ := Option.isSome_iff_exists.1 hs
    rw [h c hc]
    rfl

theorem unzipLoop_keeps (os : FsEnv) (entries : List ZipEntry) :
    ∀ (st : Dest) (k : String) (c : List UInt8), fileContent st.files k = some c →
      fileContent (unzipLoop os entries st).2.files k = some c := by
  induction entries with
  | nil => intro st k c h; exact h
  | cons f rest ih =>
    intro st k c h
    have h1 := unzipEntry_keeps os f st k c h
    unfold unzipLoop
    generalize unzipEntry os f st = out at h1
    obtain ⟨r, st1⟩ := out
    cases r with
    | some e => exact h1
    | none => exact ih st1 k c h1

theorem unzipLoop_opened (os : FsEnv) (entries : List ZipEntry) :
    ∀ st : Dest, ∃ new : List String,
      (unzipLoop os entries st).2.opened = st.opened ++ new
      ∧ ∀ x ∈ new, statOk st.files (flatName x) = false ∧ ∃ f ∈ entries, f.name = x := by
  induction entries with
  | nil => intro st; exact ⟨[], by simp [unzipLoop], by simp⟩
  | cons f rest ih =>
    intro st
    have hkeep := unzipEntry_keeps os f st
    have hcases := unzipEntry_cases os f st
    unfold unzipLoop
    generalize unzipEntry os f st = out at hkeep hcases
    obtain ⟨r, st1⟩ := out
    simp only at hkeep hcases
    have hstep : ∃ new1 : List String, st1.opened = st.opened ++ new1
        ∧ ∀ x ∈ new1, statOk st.files (flatName x) = false ∧ x = f.name := by
      rcases hcases with h | ⟨_, hs, ho, _⟩
      · exact ⟨[], by simp [h], by simp⟩
      · exact ⟨[f.name], ho, by simp [hs]⟩
    obtain ⟨new1, ho1, hn1⟩ := hstep
    cases r with
    | some e =>
      refine ⟨new1, ho1, ?_⟩
      intro x hx
      exact ⟨(hn1 x hx).1, f, by simp, (hn1 x hx).2.symm⟩
    | none =>
      obtain ⟨new2, ho2, hn2⟩ := ih st1
      refine ⟨new1 ++ new2, by simp only [ho2, ho1, List.append_assoc], ?_⟩
      intro x hx
      rcases List.mem_append.1 hx with hx | hx
      · exact ⟨(hn1 x hx).1, f, by simp, (hn1 x hx).2.symm⟩
      · obtain ⟨hs, g, hg, hgx⟩ := hn2 x hx
        refine ⟨?_, g, by simp [hg], hgx⟩
        by_contra hcon
        have : statOk st1.files (flatName x) = true :=
          statOk_of_content st.files st1.files _ (fun c hc => hkeep _ c hc) (by simpa using hcon)
        rw [this] at hs
        cases hs

theorem unzipEntry_writes (os : FsEnv) (f : ZipEntry) (st st1 : Dest)
    (h : unzipEntry os f st = (none, st1)) (hn : flatName f.name ≠ "")
    (hs : statOk st.files (flatName f.name) = false) :
    st1.files = writeFile st.files (flatName f.name) f.data := by
  unfold unzipEntry at h
  simp only [hn, if_false, hs, Bool.false_eq_true] at h
  cases hm : os.mkdirErr with
  | some e => simp [hm] at h
  | none =>
    cases ho : f.openErr with
    | some e => simp [hm, ho] at h
    | none =>
      cases hc : os.createErr (flatName f.name) with
      | some e => simp [hm, ho, hc] at h
      | none =>
        cases hcp : f.copyErr with
        | some ne => simp [hm, ho, hc, hcp] at h
        | none =>
          simp only [hm, ho, hc, hcp, Prod.mk.injEq, true_and] at h
          rw [← h]

theorem unzipLoop_cons_ok (os : FsEnv) (f : ZipEntry) (rest : List ZipEntry) (st st1 : Dest)
    (h : unzipLoop os (f :: rest) st = (none, st1)) :
    ∃ st0, unzipEntry os f st = (none, st0) ∧ unzipLoop os rest st0 = (none, st1) := by
  unfold unzipLoop at h
  generalize unzipEntry os f st = out at h
  obtain ⟨r, st0⟩ := out
  cases r with
  | some e => simp at h
  | none => exact ⟨st0, rfl, h⟩

/-- After a successful run of the loop of `unzip`, a name that did not exist before holds the
content of the first entry that flattens to it. -/
theorem unzipLoop_first (os : FsEnv) (entries : List ZipEntry) :
    ∀ (st st1 : Dest) (n : String) (f : ZipEntry),
      unzipLoop os entries st = (none, st1) → n ≠ "" → statOk st.files n = false →
      entries.find? (fun e => decide (flatName e.name = n)) = some f →
      fileContent st1.files n = some f.data := by
  induction entries with
  | nil => intro st st1 n f _ _ _ hf; simp at hf
  | cons g rest ih =>
    intro st st1 n f h hn hs hf
    obtain ⟨st0, h0, h1⟩ := unzipLoop_cons_ok os g rest st st1 h
    by_cases hg : flatName g.name = n
    · subst hg
      simp only [List.find?_cons, decide_True, Option.some.injEq] at hf
      subst hf
      have hw := unzipEntry_writes os g st st0 h0 hn hs
      have hc : fileContent st0.files (flatName g.name) = some g.data := by
        rw [hw, fileContent_writeFile, if_pos rfl]
      have := unzipLoop_keeps os rest st0 _ _ hc
      rw [h1] at this
      exact this
    · simp only [List.find?_cons, hg, decide_False] at hf
      have hother := unzipEntry_other os g st n (fun e => hg e.symm)
      rw [h0] at hother
      have hs0 : statOk st0.files n = false := by
        simp only [statOk, Bool.or_eq_false_iff] at hs ⊢
        exact ⟨hs.1, by rw [hother]; exact hs.2⟩
      exact ih st0 st1 n f h1 hn hs0 hf

theorem unzipLoop_append_ok (os : FsEnv) (l1 l2 : List ZipEntry) :
    ∀ (st st1 : Dest), unzipLoop os l1 st = (none, st1) →
      unzipLoop os (l1 ++ l2) st = unzipLoop os l2 st1 := by
  induction l1 with
  | nil =>
    intro st st1 h
    simp only [unzipLoop, Prod.mk.injEq, true_and] at h
    rw [h]; rfl
  | cons g rest ih =>
    intro st st1 h
    obtain ⟨st0, h0, h1⟩ := unzipLoop_cons_ok os g rest st st1 h
    have hstep : unzipLoop os (g :: (rest ++ l2)) st = unzipLoop os (rest ++ l2) st0 := by
      simp only [unzipLoop, h0]
    rw [List.cons_append, hstep]
    exact ih st0 st1 h1

/-- A successful run of the loop of the `extract` command is a successful run of the loop of
`unzip` over the entries of all recognised archives, in listing order. -/
theorem extractLoop_ok (os : FsEnv) (ToLower : String → String) (entries : List DirEntry) :
    ∀ (st st1 : Dest), extractLoop os ToLower entries st = (none, st1) →
      unzipLoop os ((entries.filter (isArchive ToLower)).flatMap (fun e => e.archive.file)) st
        = (none, st1) := by
  induction entries with
  | nil => intro st st1 h; simpa [extractLoop, unzipLoop] using h
  | cons e rest ih =>
    intro st st1 h
    unfold extractLoop at h
    by_cases hskip : (e.isDir || !(HasSuffix (ToLower e.name) ".zip")) = true
    · rw [if_pos hskip] at h
      have hno : isArchive ToLower e = false := by simp [isArchive, hskip]
      rw [List.filter_cons_of_neg (by simp [hno])]
      exact ih st st1 h
    · rw [if_neg hskip] at h
      have hyes : isArchive ToLower e = true := by
        simp only [isArchive, Bool.not_eq_true'] 
        simpa using hskip
      rw [List.filter_cons_of_pos hyes, List.flatMap_cons]
      cases hu : unzip os e.archive st with
      | mk r st0 =>
        rw [hu] at h
        cases r with
        | some err => simp at h
        | none =>
          simp only at h
          have hl : unzipLoop os e.archive.file st = (none, st0) := by
            unfold unzip at hu
            cases ho : e.archive.openErr with
            | some x => simp [ho] at hu
            | none => simpa [ho] using hu
          rw [unzipLoop_append_ok os _ _ st st0 hl]
          exact ih st0 st1 h

theorem lastIndexLoop_spec (s : List Char) (c : Char) :
    ∀ n, (lastIndexLoop s c n = -1 ∧ ∀ i, i < n → s.get? i ≠ some c)
      ∨ (∃ k : Nat, lastIndexLoop s c n = (k : Int) ∧ k < n ∧ s.get? k = some c
          ∧ ∀ j, k < j → j < n → s.get? j ≠ some c) := by
  intro n
  induction n with
  | zero => exact Or.inl ⟨rfl, fun i hi => absurd hi (Nat.not_lt_zero i)⟩
  | succ n ih =>
    unfold lastIndexLoop
    by_cases h : s.get? n = some c
    · rw [if_pos h]
      exact Or.inr ⟨n, rfl, Nat.lt_succ_self n, h, fun j h1 h2 => by omega⟩
    · rw [if_neg h]
      rcases ih with ⟨h1, h2⟩ | ⟨k, h1, h2, h3, h4⟩
      · refine Or.inl ⟨h1, fun i hi => ?_⟩
        rcases Nat.lt_succ_iff_lt_or_eq.1 hi with hlt | heq
        · exact h2 i hlt
        · rw [heq]; exact h
      · refine Or.inr ⟨k, h1, by omega, h3, fun j hj1 hj2 => ?_⟩
        rcases Nat.lt_succ_iff_lt_or_eq.1 hj2 with hlt | heq
        · exact h4 j hj1 hlt
        · rw [heq]; exact h

/-- The flattened name is what follows the last `/` of the entry name. -/
theorem flatName_split (name : String) :
    ∃ pre : List Char, name.data = pre ++ (flatName name).data
      ∧ (pre = [] ∨ pre.getLast? = some '/') ∧ '/' ∉ (flatName name).data := by
  rcases lastIndexLoop_spec name.data '/' name.data.length with ⟨h1, h2⟩ | ⟨k, h1, h2, h3, h4⟩
  · have hflat : flatName name = name := by
      simp only [flatName, LastIndex]
      rw [h1]
      simp
    rw [hflat]
    refine ⟨[], rfl, Or.inl rfl, ?_⟩
    intro hmem
    obtain ⟨i, hi, hget⟩ := List.getElem_of_mem hmem
    apply h2 i hi
    rw [List.get?_eq_getElem?, List.getElem?_eq_getElem hi, hget]
  · have hflat : (flatName name).data = name.data.drop (k + 1) := by
      simp only [flatName, LastIndex]
      rw [h1]
      simp
    rw [hflat]
    refine ⟨name.data.take (k + 1), (List.take_append_drop _ _).symm, Or.inr ?_, ?_⟩
    · rw [List.get?_eq_getElem?] at h3
      rw [List.getLast?_take]
      simp [h3]
    · intro hmem
      obtain ⟨i, hi, hget⟩ := List.getElem_of_mem hmem
      rw [List.getElem_drop] at hget
      rw [List.length_drop] at hi
      apply h4 (k + 1 + i) (by omega) (by omega)
      rw [List.get?_eq_getElem?, List.getElem?_eq_getElem (by omega), hget]

/-! ## Claims on the extractor -/

/-- C8: `unzip` never overwrites. Whatever the archive and whether or not `unzip` returns an
error, every file of the destination directory keeps its content; an entry whose flattened
name exists when its turn comes leaves the state as it is (nothing opened, nothing written)
and the loop continues; and every entry that `unzip` opened has a flattened name that did not
exist when `unzip` started. -/
theorem unzip_never_overwrites (os : FsEnv) (a : Archive) (st : Dest) :
    (∀ (name : String) (c : List UInt8), fileContent st.files name = some c →
        fileContent (unzip os a st).2.files name = some c)
    ∧ (∀ f : ZipEntry, statOk st.files (flatName f.name) = true →
        (unzipEntry os f st).2 = st ∧ (os.mkdirErr = none → unzipEntry os f st = (none, st)))
    ∧ (∃ new : List String, (unzip os a st).2.opened = st.opened ++ new
        ∧ ∀ x ∈ new, statOk st.files (flatName x) = false ∧ ∃ f ∈ a.file, f.name = x) := by
  refine ⟨?_, ?_, ?_⟩
  · intro name c h
    unfold unzip
    cases a.openErr with
    | some e => exact h
    | none => exact unzipLoop_keeps os a.file st name c h
  · intro f hs
    constructor
    · rcases unzipEntry_cases os f st with h | ⟨_, h, _, _⟩
      · exact h
      · rw [hs] at h; cases h
    · intro hm
      unfold unzipEntry
      by_cases hn : flatName f.name = ""
      · simp [hn]
      · simp [hn, hm, hs]
  · unfold unzip
    cases a.openErr with
    | some e => exact ⟨[], by simp, by simp⟩
    | none => exact unzipLoop_opened os a.file st

/-- Witness of C8: the file `x.csv` of `sampleDest` keeps its content when `sampleArchive`,
whose entries flatten to `x.csv`, is unzipped, and the first entry leaves the state as is. -/
theorem unzip_never_overwrites_witness :
    fileContent (unzip okEnv sampleArchive sampleDest).2.files "x.csv" = some [7]
    ∧ (unzipEntry okEnv (ZipEntry.mk "a/x.csv" [1] none none) sampleDest).2 = sampleDest :=
  ⟨(unzip_never_overwrites okEnv sampleArchive sampleDest).1 "x.csv" [7] (by decide),
   ((unzip_never_overwrites okEnv sampleArchive sampleDest).2.1
      (ZipEntry.mk "a/x.csv" [1] none none) (by decide)).1⟩

/-- C9 as stated fails: with an empty destination directory, two entries of one archive that
flatten to `x.csv`, and likewise two archives that each hold `x.csv`, leave `x.csv` with the
content of the earlier entry, not of the later one (on lower-case names `strings.ToLower` is
the identity). -/
theorem later_entry_wins_counterexample :
    statOk emptyDest.files "x.csv" = false
    ∧ (unzip okEnv sampleArchive emptyDest).1 = none
    ∧ fileContent (unzip okEnv sampleArchive emptyDest).2.files "x.csv" = some [1]
    ∧ fileContent (unzip okEnv sampleArchive emptyDest).2.files "x.csv" ≠ some [2]
    ∧ (extractLoop okEnv (fun s => s) sampleDir emptyDest).1 = none
    ∧ fileContent (extractLoop okEnv (fun s => s) sampleDir emptyDest).2.files "x.csv" = some [1]
    ∧ fileContent (extractLoop okEnv (fun s => s) sampleDir emptyDest).2.files "x.csv"
        ≠ some [2] := by
  decide

/-- C9 amended: when entries within one archive, or entries of archives processed in
sequence, share the same final filename and no file of that name exists in the destination
before extraction starts, the earlier one wins: after a successful extraction the destination
file holds the content of the first such entry. -/
theorem first_entry_wins (os : FsEnv) (ToLower : String → String) :
    (∀ (a : Archive) (st st1 : Dest) (n : String) (f : ZipEntry),
        unzip os a st = (none, st1) → n ≠ "" → statOk st.files n = false →
        a.file.find? (fun e => decide (flatName e.name = n)) = some f →
        fileContent st1.files n = some f.data)
    ∧ (∀ (entries : List DirEntry) (st st1 : Dest) (n : String) (f : ZipEntry),
        extractLoop os ToLower entries st = (none, st1) → n ≠ "" → statOk st.files n = false →
        ((entries.filter (isArchive ToLower)).flatMap (fun e => e.archive.file)).find?
            (fun e => decide (flatName e.name = n)) = some f →
        fileContent st1.files n = some f.data) := by
  constructor
  · intro a st st1 n f h hn hs hf
    unfold unzip at h
    cases ho : a.openErr with
    | some e => simp [ho] at h
    | none =>
      simp only [ho] at h
      exact unzipLoop_first os a.file st st1 n f h hn hs hf
  · intro entries st st1 n f h hn hs hf
    exact unzipLoop_first os _ st st1 n f (extractLoop_ok os ToLower entries st st1 h) hn hs hf

/-- Witness of the amended C9 at `sampleArchive` and at `sampleDir`, with an empty destination
directory. -/
theorem first_entry_wins_witness :
    fileContent (unzip okEnv sampleArchive emptyDest).2.files "x.csv" = some [1]
    ∧ fileContent (extractLoop okEnv (fun s => s) sampleDir emptyDest).2.files "x.csv"
        = some [1] :=
  ⟨(first_entry_wins okEnv (fun s => s)).1 sampleArchive emptyDest
      (unzip okEnv sampleArchive emptyDest).2 "x.csv" (ZipEntry.mk "a/x.csv" [1] none none)
      (by decide) (by decide) (by decide) (by decide),
   (first_entry_wins okEnv (fun s => s)).2 sampleDir emptyDest
      (extractLoop okEnv (fun s => s) sampleDir emptyDest).2 "x.csv"
      (ZipEntry.mk "x.csv" [1] none none) (by decide) (by decide) (by decide) (by decide)⟩

/-- C10: the output filename that `unzip` derives from an entry name contains no `/`; the
entry name is the derived name preceded by nothing or by a part ending in `/`; it is the whole
entry name when that contains no `/`; it is empty exactly when the entry name is empty or
ends in `/`, and such an entry leaves the state as it is; processing an entry changes no file
other than the one of the derived name in the destination directory, and when the entry is
extracted that file holds the content of the entry. -/
theorem flatName_final_segment (f : ZipEntry) :
    '/' ∉ (flatName f.name).data
    ∧ (∃ pre : List Char, f.name.data = pre ++ (flatName f.name).data
        ∧ (pre = [] ∨ pre.getLast? = some '/'))
    ∧ ('/' ∉ f.name.data → flatName f.name = f.name)
    ∧ (flatName f.name = "" ↔ (f.name = "" ∨ f.name.data.getLast? = some '/'))
    ∧ (∀ (os : FsEnv) (st : Dest), flatName f.name = "" → unzipEntry os f st = (none, st))
    ∧ (∀ (os : FsEnv) (st : Dest) (k : String), k ≠ flatName f.name →
        fileContent (unzipEntry os f st).2.files k = fileContent st.files k)
    ∧ (∀ (os : FsEnv) (st st1 : Dest), unzipEntry os f st = (none, st1) →
        flatName f.name ≠ "" → statOk st.files (flatName f.name) = false →
        fileContent st1.files (flatName f.name) = some f.data) := by
  obtain ⟨pre, hsplit, hpre, hno⟩ := flatName_split f.name
  refine ⟨hno, ⟨pre, hsplit, hpre⟩, ?_, ?_, ?_, ?_, ?_⟩
  · intro hn
    rcases hpre with hp | hp
    · apply String.ext
      rw [hsplit, hp, List.nil_append]
    · exfalso
      apply hn
      rw [hsplit]
      exact List.mem_append_left _ (List.mem_of_getLast?_eq_some hp)
  · constructor
    · intro he
      have hd : (flatName f.name).data = [] := by rw [he]
      rw [hd, List.append_nil] at hsplit
      rcases hpre with hp | hp
      · left
        apply String.ext
        rw [hsplit, hp]
      · right
        rw [hsplit]; exact hp
    · intro h
      apply String.ext
      show (flatName f.name).data = []
      rcases h with h | h
      · have hd : f.name.data = [] := by rw [h]
        rw [hd] at hsplit
        exact (List.append_eq_nil.1 hsplit.symm).2
      · by_contra hne
        rw [hsplit, List.getLast?_append_of_ne_nil _ hne] at h
        exact hno (List.mem_of_getLast?_eq_some h)
  · intro os st he
    simp [unzipEntry, he]
  · intro os st k hk
    exact unzipEntry_other os f st k hk
  · intro os st st1 h hn hs
    rw [unzipEntry_writes os f st st1 h hn hs, fileContent_writeFile, if_pos rfl]

/-- Witness of C10: `dir/sub/data.csv` flattens to a name that holds its content after
extraction into the empty directory, `plain.csv` is its own flattened name, and the
directory marker `dir/` is ignored. -/
theorem flatName_final_segment_witness :
    flatName "plain.csv" = "plain.csv"
    ∧ unzipEntry okEnv (ZipEntry.mk "dir/" [] none none) emptyDest = (none, emptyDest)
    ∧ fileContent
        (unzipEntry okEnv (ZipEntry.mk "dir/sub/data.csv" [1, 2] none none) emptyDest).2.files
        (flatName "dir/sub/data.csv") = some [1, 2] :=
  ⟨(flatName_final_segment (ZipEntry.mk "plain.csv" [] none none)).2.2.1 (by decide),
   (flatName_final_segment (ZipEntry.mk "dir/" [] none none)).2.2.2.2.1 okEnv emptyDest
      (by decide),
   (flatName_final_segment (ZipEntry.mk "dir/sub/data.csv" [1, 2] none none)).2.2.2.2.2.2
      okEnv emptyDest _ (by decide) (by decide) (by decide)⟩

end Bcd
